import Mathlib

/-! # libgost: GOST R 34.12-2015 "Magma" (64-bit block) with ECB and CTR modes

Shallow embedding of `src/libs/libgost.c`.

Conventions of the embedding
* `uint8_t`, `uint32_t`, `uint64_t`, `size_t` values are natural numbers; every
  place where the C arithmetic wraps carries an explicit `% 2^w`.
* A pointer argument is an `Option`: `none` is `NULL`, `some v` is a valid
  pointer whose pointee currently holds `v`.
* A function that writes through its pointer arguments returns the `bool`
  result of the C function together with the final contents of what it may
  have written.
* The casts `(uint32_t *)`, `(uint64_t *)`, `(uint8_t *)` reinterpret memory;
  they are modelled for a little-endian target by `toBytesLE` / `ofBytesLE`.
* An array is a list; the arrays of the C types have a fixed size
  (`permutation[128]`, `roundKeys[8]`, `key[32]`), and a buffer passed with a
  `length` holds at least `length` bytes. A read past the end of a list yields 0.
* `1 << n` with `n ≥ 31` has no value defined by C. The model takes the value
  produced there as a parameter `shlUB` of `GostCipher64_SetPermutation`.
-/

namespace LibGost

/-! ## Memory views -/

/-- The `n` bytes of the little-endian representation of `v`. -/
def toBytesLE : Nat → Nat → List Nat
  | 0, _ => []
  | n + 1, v => v % 256 :: toBytesLE n (v / 256)

/-- The value whose little-endian representation is the byte list. -/
def ofBytesLE : List Nat → Nat
  | [] => 0
  | b :: bs => b + 256 * ofBytesLE bs

/-- `memcpy(dst + off, src, n)`: the contents of `dst` afterwards. -/
def memcpy (dst : List Nat) (off : Nat) (src : List Nat) (n : Nat) : List Nat :=
  dst.take off ++ src.take n ++ dst.drop (off + n)

/-! ## Data model (`libgost.h`) -/

/-- The substitution table of the standard, `GostCipher64_Permutation[128]`. -/
def GostCipher64_Permutation : List Nat :=
  [0xc, 0x4, 0x6, 0x2, 0xa, 0x5, 0xb, 0x9, 0xe, 0x8, 0xd, 0x7, 0x0, 0x3, 0xf, 0x1,
   0x6, 0x8, 0x2, 0x3, 0x9, 0xa, 0x5, 0xc, 0x1, 0xe, 0x4, 0x7, 0xb, 0xd, 0x0, 0xf,
   0xb, 0x3, 0x5, 0x8, 0x2, 0xf, 0xa, 0xd, 0xe, 0x1, 0x7, 0x4, 0xc, 0x9, 0x6, 0x0,
   0xc, 0x8, 0x2, 0x1, 0xd, 0x4, 0xf, 0x6, 0x7, 0x0, 0xa, 0x5, 0x3, 0xe, 0x9, 0xb,
   0x7, 0xf, 0x5, 0xa, 0x8, 0x1, 0x6, 0xd, 0x0, 0x9, 0x3, 0xe, 0xb, 0x4, 0x2, 0xc,
   0x5, 0xd, 0xf, 0x6, 0x9, 0x2, 0xc, 0xa, 0xb, 0x7, 0x8, 0x1, 0x4, 0x3, 0xe, 0x0,
   0x8, 0xe, 0x2, 0x5, 0x6, 0x9, 0x1, 0xc, 0xf, 0x4, 0xb, 0x0, 0xd, 0xa, 0x3, 0x7,
   0x1, 0x7, 0xe, 0xd, 0x0, 0x5, 0x8, 0x3, 0x4, 0xf, 0xa, 0x6, 0x9, 0xc, 0xb, 0x2]

/-- The `data` member of `GostCipher64_t`. `IV` is a pointer to a heap buffer. -/
structure GostCipher64_data where
  permutation : List Nat
  roundKeys : List Nat
  IV : Option (List Nat)
deriving DecidableEq, Repr

/-- The `settings` member of `GostCipher64_t`. -/
structure GostCipher64_settings where
  IVLength : Nat
  gammaPeriod : Nat
deriving DecidableEq, Repr

/-- The cipher context `GostCipher64_t`. -/
structure GostCipher64_t where
  data : GostCipher64_data
  settings : GostCipher64_settings
deriving DecidableEq, Repr

/-! ## Block transforms -/

/-- Body of the inner loop `for (j = 0; j < 4; j++)`: the two assignments to
`p8[j]`, on the byte view `p8` of `t32`. -/
def substituteByte (permutation : List Nat) (p8 : List Nat) (j : Nat) : List Nat :=
  let p8 := p8.set j
    (((p8.getD j 0 &&& 0xf0) ^^^ permutation.getD (16 * (2 * j) + (p8.getD j 0 &&& 0x0f)) 0) % 256)
  p8.set j
    (((p8.getD j 0 &&& 0x0f) ^^^
      (permutation.getD (16 * (2 * j + 1) + ((p8.getD j 0 &&& 0xf0) >>> 4)) 0 <<< 4)) % 256)

/-- The inner loop over the four bytes of `t32`, through `p8 = (uint8_t *) &t32`. -/
def substitute (permutation : List Nat) (t32 : Nat) : Nat :=
  ofBytesLE ((List.range 4).foldl (substituteByte permutation) (toBytesLE 4 t32))

/-- One iteration of the round loop, after `key` was selected for round `i`;
`p32 = (p32[0], p32[1])` is the 32-bit view of `*destination`. -/
def roundBody (permutation : List Nat) (key : Nat) (i : Nat) (p32 : Nat × Nat) : Nat × Nat :=
  let t32 := p32.1
  let t32 := (t32 + key) % 2 ^ 32
  let t32 := substitute permutation t32
  let t32 := (((t32 <<< 11) % 2 ^ 32) ^^^ ((t32 >>> 21) &&& 0x7FF)) ^^^ p32.2
  if i < 31 then (t32, p32.1) else (p32.1, t32)

/-- Round key used by `GostCipher64_EncryptionBlock` in round `i`. -/
def encryptionKey (c : GostCipher64_t) (i : Nat) : Nat :=
  if i < 24 then c.data.roundKeys.getD (i % 8) 0 else c.data.roundKeys.getD (7 - i % 8) 0

/-- Round key used by `GostCipher64_DecryptionBlock` in round `i`. -/
def decryptionKey (c : GostCipher64_t) (i : Nat) : Nat :=
  if i < 8 then c.data.roundKeys.getD (i % 8) 0 else c.data.roundKeys.getD (7 - i % 8) 0

/-- The 32-bit view `p32` of a 64-bit value. -/
def split64 (v : Nat) : Nat × Nat := (v % 2 ^ 32, v / 2 ^ 32 % 2 ^ 32)

/-- The 64-bit value seen through the 32-bit view `p32`. -/
def join64 (p32 : Nat × Nat) : Nat := p32.1 + 2 ^ 32 * p32.2

/-- The loop `for (i = 0; i < 32; i++)` of `GostCipher64_EncryptionBlock`,
from `*destination = *source` to the final value of `*destination`. -/
def encryptionRounds (c : GostCipher64_t) (source : Nat) : Nat :=
  join64 ((List.range 32).foldl
    (fun p32 i => roundBody c.data.permutation (encryptionKey c i) i p32) (split64 source))

/-- The loop `for (i = 0; i < 32; i++)` of `GostCipher64_DecryptionBlock`. -/
def decryptionRounds (c : GostCipher64_t) (source : Nat) : Nat :=
  join64 ((List.range 32).foldl
    (fun p32 i => roundBody c.data.permutation (decryptionKey c i) i p32) (split64 source))

/-- `GostCipher64_EncryptionBlock(cipher, destination, source)`: the result and
the final contents of `*destination`. The value of `*source` is read once, by
`*destination = *source`, so the call `(cipher, &block, &block)` is covered by
passing the same value twice. -/
def GostCipher64_EncryptionBlock (cipher : Option GostCipher64_t)
    (destination source : Option Nat) : Bool × Option Nat :=
  match cipher, destination, source with
  | some c, some _, some s => (true, some (encryptionRounds c s))
  | _, d, _ => (false, d)

/-- `GostCipher64_DecryptionBlock(cipher, destination, source)`. -/
def GostCipher64_DecryptionBlock (cipher : Option GostCipher64_t)
    (destination source : Option Nat) : Bool × Option Nat :=
  match cipher, destination, source with
  | some c, some _, some s => (true, some (decryptionRounds c s))
  | _, d, _ => (false, d)

/-! ## Configuration -/

/-- `GostCipher64_Init(cipher)`: the result and the final `*cipher`. The
incoming contents of `*cipher` are not read. -/
def GostCipher64_Init (cipher : Option GostCipher64_t) : Bool × Option GostCipher64_t :=
  match cipher with
  | none => (false, none)
  | some _ =>
    (true, some
      { data := { permutation := List.replicate 128 0,
                  roundKeys := List.replicate 8 0,
                  IV := none },
        settings := { IVLength := 0, gammaPeriod := 0 } })

/-- The element `p32[w]` of `p32 = (uint32_t *)(*key)`. -/
def keyWord (key : List Nat) (w : Nat) : Nat :=
  ofBytesLE ((key.drop (4 * w)).take 4)

/-- `GostCipher64_SetKey(cipher, key)`. -/
def GostCipher64_SetKey (cipher : Option GostCipher64_t) (key : Option (List Nat)) :
    Bool × Option GostCipher64_t :=
  match cipher, key with
  | some c, some k =>
    (true, some { c with data := { c.data with
      roundKeys := (List.range 8).map (fun i => keyWord k (8 - i - 1)) } })
  | c, _ => (false, c)

/-- The value of the C expression `1 << n`, of type `int`, as a bit pattern.
C defines it for `n < 31` only. For a larger count the behaviour is undefined
in C and `shlUB n` stands for what the target machine produces. -/
def shiftOne (shlUB : Nat → Nat) (n : Nat) : Nat :=
  if n < 31 then 1 <<< n else shlUB n

/-- The inner loop of `GostCipher64_SetPermutation` for group `i`: the final
value of the `uint16_t flags`. -/
def permutationFlags (shlUB : Nat → Nat) (permutation : List Nat) (i : Nat) : Nat :=
  (List.range 16).foldl
    (fun flags j => (flags ||| shiftOne shlUB (permutation.getD (16 * i + j) 0)) % 2 ^ 16) 0

/-- `GostCipher64_SetPermutation(cipher, permutation)`. The loop over the 8
groups returns `false` at the first group whose flags differ from `0xffff`;
after it `memcpy(cipher->data.permutation, *permutation, 128)` replaces the
whole table. -/
def GostCipher64_SetPermutation (shlUB : Nat → Nat) (cipher : Option GostCipher64_t)
    (permutation : Option (List Nat)) : Bool × Option GostCipher64_t :=
  match cipher, permutation with
  | some c, some p =>
    if (List.range 8).all (fun i => permutationFlags shlUB p i == 0xffff) then
      (true, some { c with data := { c.data with permutation := p.take 128 } })
    else
      (false, some c)
  | c, _ => (false, c)

/-- `GostCipher64_SetIV(cipher, IV, length)`: the old buffer is released and a
fresh buffer of `length` bytes receives the first `length` bytes of `IV`. -/
def GostCipher64_SetIV (cipher : Option GostCipher64_t) ( IV : Option (List Nat))
    (length : Nat) : Bool × Option GostCipher64_t :=
  match cipher, IV with
  | some c, some iv =>
    (true, some { data := { c.data with IV := some (iv.take length) },
                  settings := { c.settings with IVLength := length } })
  | c, _ => (false, c)

/-- `GostCipher64_SetGammaPeriod(cipher, period)`. -/
def GostCipher64_SetGammaPeriod (cipher : Option GostCipher64_t) (period : Nat) :
    Bool × Option GostCipher64_t :=
  match cipher with
  | none => (false, none)
  | some c =>
    if period = 0 ∨ period > 8 then (false, some c)
    else (true, some { c with settings := { c.settings with gammaPeriod := period } })

/-! ## Modes of operation -/

/-- Outcome of a call of a mode function: the returned `bool`, and the final
contents of `*cipher` and of the `destination` buffer. -/
structure ModeResult where
  result : Bool
  cipher : Option GostCipher64_t
  destination : Option (List Nat)
deriving DecidableEq, Repr

/-- The element `s64[k]` of `s64 = (uint64_t *) source`. -/
def load64 (source : List Nat) (k : Nat) : Nat :=
  ofBytesLE ((source.drop (8 * k)).take 8)

/-- The assignment `d64[k] = block` on `d64 = (uint64_t *) destination`. -/
def store64 (destination : List Nat) (k : Nat) (block : Nat) : List Nat :=
  memcpy destination (8 * k) (toBytesLE 8 block) 8

/-- Body of the loop of `GostCipher64_EncryptionECB` at `i = 8 * k`; the state
is `(ok, destination)`, where `ok = false` records that the function returned
`false` from inside the loop. -/
def encryptionECBBody (c : GostCipher64_t) (source : List Nat)
    (st : Bool × List Nat) (k : Nat) : Bool × List Nat :=
  if st.1 then
    let i := 8 * k
    let block := load64 source (i / 8)
    match GostCipher64_EncryptionBlock (some c) (some block) (some block) with
    | (true, some block) => (true, store64 st.2 (i / 8) block)
    | _ => (false, st.2)
  else st

/-- Body of the loop of `GostCipher64_DecryptionECB` at `i = 8 * k`. -/
def decryptionECBBody (c : GostCipher64_t) (source : List Nat)
    (st : Bool × List Nat) (k : Nat) : Bool × List Nat :=
  if st.1 then
    let i := 8 * k
    let block := load64 source (i / 8)
    match GostCipher64_DecryptionBlock (some c) (some block) (some block) with
    | (true, some block) => (true, store64 st.2 (i / 8) block)
    | _ => (false, st.2)
  else st

/-- `GostCipher64_EncryptionECB(cipher, destination, source, length)`. After
the guard `length % 8 == 0`, the loop `for (i = 0; i < length; i += 8)` runs
for `i = 8 * k`, `k = 0, ..., length / 8 - 1`. -/
def GostCipher64_EncryptionECB (cipher : Option GostCipher64_t)
    (destination source : Option (List Nat)) (length : Nat) : ModeResult :=
  match cipher, destination, source with
  | some c, some d, some s =>
    if length = 0 ∨ length % 8 ≠ 0 then ⟨false, some c, some d⟩
    else
      let st := (List.range (length / 8)).foldl (encryptionECBBody c s) (true, d)
      ⟨st.1, some c, some st.2⟩
  | c, d, _ => ⟨false, c, d⟩

/-- `GostCipher64_DecryptionECB(cipher, destination, source, length)`. -/
def GostCipher64_DecryptionECB (cipher : Option GostCipher64_t)
    (destination source : Option (List Nat)) (length : Nat) : ModeResult :=
  match cipher, destination, source with
  | some c, some d, some s =>
    if length = 0 ∨ length % 8 ≠ 0 then ⟨false, some c, some d⟩
    else
      let st := (List.range (length / 8)).foldl (decryptionECBBody c s) (true, d)
      ⟨st.1, some c, some st.2⟩
  | c, d, _ => ⟨false, c, d⟩

/-- The counter after `counter = 0; memcpy(((uint8_t *) &counter) + 4,
cipher->data.IV, cipher->settings.IVLength)`. A null `IV` has no bytes to copy
from (the C call is then undefined); it is read here as an empty buffer. -/
def initialCounter (c : GostCipher64_t) : Nat :=
  ofBytesLE (memcpy (toBytesLE 8 0) 4 (c.data.IV.getD []) c.settings.IVLength)

/-- Body of the loop `for (i = 0; i < length; i++)` of
`GostCipher64_EncryptionCTR`; the state is `(counter, gamma, destination)` and
`p8 = (uint8_t *) &gamma`. The result of the block call is not tested. -/
def encryptionCTRBody (c : GostCipher64_t) (source : List Nat)
    (st : Nat × Nat × List Nat) (i : Nat) : Nat × Nat × List Nat :=
  let counter := st.1
  let gamma := st.2.1
  let destination := st.2.2
  let gamma := if i % 8 = 0 then
      (GostCipher64_EncryptionBlock (some c) (some gamma) (some counter)).2.getD gamma
    else gamma
  let counter := if i % 8 = 0 then (counter + 1) % 2 ^ 64 else counter
  (counter, gamma, destination.set i (source.getD i 0 ^^^ (toBytesLE 8 gamma).getD (i % 8) 0))

/-- `GostCipher64_EncryptionCTR(cipher, destination, source, length)`. The
local `gamma` is uninitialised before the loop and written at `i = 0`; it is
started at `0` here. -/
def GostCipher64_EncryptionCTR (cipher : Option GostCipher64_t)
    (destination source : Option (List Nat)) (length : Nat) : ModeResult :=
  match cipher, destination, source with
  | some c, some d, some s =>
    if length = 0 then ⟨false, some c, some d⟩
    else if c.settings.IVLength ≠ 4 then ⟨false, some c, some d⟩
    else
      let st := (List.range length).foldl (encryptionCTRBody c s) (initialCounter c, 0, d)
      ⟨true, some c, some st.2.2⟩
  | c, d, _ => ⟨false, c, d⟩

/-- `GostCipher64_DecryptionCTR(cipher, destination, source, length)`. -/
def GostCipher64_DecryptionCTR (cipher : Option GostCipher64_t)
    (destination source : Option (List Nat)) (length : Nat) : ModeResult :=
  GostCipher64_EncryptionCTR cipher destination source length


/-! ## Proof helpers: the round loop as a Feistel ladder -/

/-- The value XOR-ed into `p32[1]` in a round with key `key`. -/
def roundValue (permutation : List Nat) (key lo : Nat) : Nat :=
  let t32 := substitute permutation ((lo + key) % 2 ^ 32)
  ((t32 <<< 11) % 2 ^ 32) ^^^ ((t32 >>> 21) &&& 0x7FF)

/-- A round with `i < 31`. -/
def roundF (permutation : List Nat) (key : Nat) (p32 : Nat × Nat) : Nat × Nat :=
  (roundValue permutation key p32.1 ^^^ p32.2, p32.1)

/-- The round with `i = 31`. -/
def roundG (permutation : List Nat) (key : Nat) (p32 : Nat × Nat) : Nat × Nat :=
  (p32.1, roundValue permutation key p32.1 ^^^ p32.2)

/-- Consecutive rounds with `i < 31`, one per key of the list. -/
def ladder (permutation : List Nat) (keys : List Nat) (p32 : Nat × Nat) : Nat × Nat :=
  keys.foldl (fun p k => roundF permutation k p) p32

/-- Round keys `roundKeys[n]`. -/
def rk (c : GostCipher64_t) (n : Nat) : Nat := c.data.roundKeys.getD n 0

/-- Keys of rounds 1..30 of the encryption. -/
def middleKeys (c : GostCipher64_t) : List Nat :=
  [rk c 1, rk c 2, rk c 3, rk c 4, rk c 5, rk c 6, rk c 7,
   rk c 0, rk c 1, rk c 2, rk c 3, rk c 4, rk c 5, rk c 6, rk c 7,
   rk c 0, rk c 1, rk c 2, rk c 3, rk c 4, rk c 5, rk c 6, rk c 7,
   rk c 7, rk c 6, rk c 5, rk c 4, rk c 3, rk c 2, rk c 1]

/-- Both halves fit in 32 bits. -/
def Halves32 (p32 : Nat × Nat) : Prop := p32.1 < 2 ^ 32 ∧ p32.2 < 2 ^ 32

/-! ## Proof helpers: closed forms of the mode loops -/

/-- Contents of the first `8 * n` destination bytes after `n` iterations of an
ECB loop whose block transform is `f`. -/
def ecbImage (f : Nat → Nat) (source : List Nat) : Nat → List Nat
  | 0 => []
  | n + 1 => ecbImage f source n ++ toBytesLE 8 (f (load64 source n))

/-- Byte `i` of the CTR keystream of context `c`. -/
def ctrStream (c : GostCipher64_t) (i : Nat) : Nat :=
  (toBytesLE 8 (encryptionRounds c ((initialCounter c + i / 8) % 2 ^ 64))).getD (i % 8) 0

/-- Contents of the first `n` destination bytes after `n` iterations of the
CTR loop. -/
def ctrImage (c : GostCipher64_t) (source : List Nat) (n : Nat) : List Nat :=
  (List.range n).map (fun i => source.getD i 0 ^^^ ctrStream c i)

/-! ## Reference data of the self-tests (`GostCipher64_ControlECB`, `GostCipher64_ControlCTR`) -/

/-- The array `key` of the self-tests. -/
def Control_key : List Nat :=
  [0xff, 0xfe, 0xfd, 0xfc, 0xfb, 0xfa, 0xf9, 0xf8,
   0xf7, 0xf6, 0xf5, 0xf4, 0xf3, 0xf2, 0xf1, 0xf0,
   0x00, 0x11, 0x22, 0x33, 0x44, 0x55, 0x66, 0x77,
   0x88, 0x99, 0xaa, 0xbb, 0xcc, 0xdd, 0xee, 0xff]

/-- The array `open` of the self-tests. -/
def Control_open : List Nat :=
  [0x59, 0x0a, 0x13, 0x3c, 0x6b, 0xf0, 0xde, 0x92,
   0x20, 0x9d, 0x18, 0xf8, 0x04, 0xc7, 0x54, 0xdb,
   0x4c, 0x02, 0xa8, 0x67, 0x2e, 0xfb, 0x98, 0x4a,
   0x41, 0x7e, 0xb5, 0x17, 0x9b, 0x40, 0x12, 0x89]

/-- The array `close` of `GostCipher64_ControlECB`. -/
def ControlECB_close : List Nat :=
  [0xa0, 0x72, 0xf3, 0x94, 0x04, 0x3f, 0x07, 0x2b,
   0x48, 0x6e, 0x55, 0xd3, 0x15, 0xe7, 0x70, 0xde,
   0x1e, 0xbc, 0xcf, 0xea, 0xe9, 0xd9, 0xd8, 0x11,
   0xfb, 0x7e, 0xc6, 0x96, 0x09, 0x26, 0x68, 0x7c]

/-- The array `IV` of `GostCipher64_ControlCTR`. -/
def ControlCTR_IV : List Nat := [0x78, 0x56, 0x34, 0x12]

/-- The array `close` of `GostCipher64_ControlCTR`. -/
def ControlCTR_close : List Nat :=
  [0x3c, 0xb9, 0xb7, 0x97, 0x0c, 0x11, 0x98, 0x4e,
   0x69, 0x5d, 0xe8, 0xd6, 0x93, 0x0d, 0x25, 0x3e,
   0xef, 0xdb, 0xb2, 0x07, 0x88, 0x86, 0x6d, 0x13,
   0x2d, 0xa1, 0x52, 0xab, 0x80, 0xb6, 0x8e, 0x56]

/-- The array `result` of the self-tests, `{ 0 }`. -/
def Control_result : List Nat := List.replicate 32 0

/-- The context of `GostCipher64_ControlECB` once `GostCipher64_Init`,
`GostCipher64_SetKey` and `GostCipher64_SetPermutation` have returned. -/
def controlCipherECB : GostCipher64_t :=
  { data := { permutation := GostCipher64_Permutation,
              roundKeys := [0xffeeddcc, 0xbbaa9988, 0x77665544, 0x33221100,
                            0xf0f1f2f3, 0xf4f5f6f7, 0xf8f9fafb, 0xfcfdfeff],
              IV := none },
    settings := { IVLength := 0, gammaPeriod := 0 } }

/-- The context of `GostCipher64_ControlCTR` once its five configuration calls
have returned. -/
def controlCipherCTR : GostCipher64_t :=
  { data := { controlCipherECB.data with IV := some ControlCTR_IV },
    settings := { IVLength := 4, gammaPeriod := 8 } }

/-- A context holding arbitrary earlier contents, used as a concrete input. -/
def staleCipher : GostCipher64_t :=
  { data := { permutation := List.replicate 128 7, roundKeys := [1, 2, 3, 4, 5, 6, 7, 8],
              IV := some [9, 9] },
    settings := { IVLength := 2, gammaPeriod := 3 } }

/-! ## Block transforms with checked array accesses

A second rendering of the round loop in which every read of
`cipher->data.permutation` and `cipher->data.roundKeys` is bounds-checked
(`none` stands for an access outside the array) and the executed rounds are
counted. -/

/-- Body of `for (j = 0; j < 4; j++)` with checked reads of `p8` and of the
table. -/
def substituteByteChecked (permutation p8 : List Nat) (j : Nat) : Option (List Nat) := do
  let b ← p8[j]?
  let e0 ← permutation[16 * (2 * j) + (b &&& 0x0f)]?
  let b1 := ((b &&& 0xf0) ^^^ e0) % 256
  let e1 ← permutation[16 * (2 * j + 1) + ((b1 &&& 0xf0) >>> 4)]?
  pure (p8.set j (((b1 &&& 0x0f) ^^^ (e1 <<< 4)) % 256))

/-- The inner loop with checked reads. -/
def substituteChecked (permutation : List Nat) (t32 : Nat) : Option Nat :=
  ((List.range 4).foldlM (substituteByteChecked permutation) (toBytesLE 4 t32)).map ofBytesLE

/-- Index into `roundKeys` used by round `i` of the encryption. -/
def encryptionKeyIndex (i : Nat) : Nat := if i < 24 then i % 8 else 7 - i % 8

/-- Index into `roundKeys` used by round `i` of the decryption. -/
def decryptionKeyIndex (i : Nat) : Nat := if i < 8 then i % 8 else 7 - i % 8

/-- One round with a checked read of `roundKeys[keyIndex]`. -/
def roundBodyChecked (c : GostCipher64_t) (keyIndex i : Nat) (p32 : Nat × Nat) :
    Option (Nat × Nat) := do
  let key ← c.data.roundKeys[keyIndex]?
  let t32 ← substituteChecked c.data.permutation ((p32.1 + key) % 2 ^ 32)
  let t32 := (((t32 <<< 11) % 2 ^ 32) ^^^ ((t32 >>> 21) &&& 0x7FF)) ^^^ p32.2
  pure (if i < 31 then (t32, p32.1) else (p32.1, t32))

/-- The round loop of `GostCipher64_EncryptionBlock` with checked reads: the
final `*destination` and the number of rounds executed. -/
def encryptionRoundsChecked (c : GostCipher64_t) (source : Nat) : Option (Nat × Nat) :=
  ((List.range 32).foldlM
    (fun st i => (roundBodyChecked c (encryptionKeyIndex i) i st.1).map (fun p => (p, st.2 + 1)))
    (split64 source, 0)).map (fun st => (join64 st.1, st.2))

/-- The round loop of `GostCipher64_DecryptionBlock` with checked reads. -/
def decryptionRoundsChecked (c : GostCipher64_t) (source : Nat) : Option (Nat × Nat) :=
  ((List.range 32).foldlM
    (fun st i => (roundBodyChecked c (decryptionKeyIndex i) i st.1).map (fun p => (p, st.2 + 1)))
    (split64 source, 0)).map (fun st => (join64 st.1, st.2))

/-! ## Self-tests and entry point -/

/-- `memcmp(a, b, n)`: 0 when the first `n` bytes agree and a nonzero value
otherwise; the callers only test the result against 0. -/
def memcmp (a b : List Nat) (n : Nat) : Nat :=
  if a.take n = b.take n then 0 else 1

/-- `GostCipher64_ControlECB()`. `cipher` is the content of the uninitialised
local variable; `result` starts as `{ 0 }` and is used by both mode calls. -/
def GostCipher64_ControlECB (shlUB : Nat → Nat) (cipher : GostCipher64_t) : Bool :=
  let r1 := GostCipher64_Init (some cipher)
  if !r1.1 then false else
  let r2 := GostCipher64_SetKey r1.2 (some Control_key)
  if !r2.1 then false else
  let r3 := GostCipher64_SetPermutation shlUB r2.2 (some GostCipher64_Permutation)
  if !r3.1 then false else
  let e := GostCipher64_EncryptionECB r3.2 (some Control_result) (some Control_open) 32
  if !e.result then false else
  if memcmp (e.destination.getD []) ControlECB_close 32 = 0 then false else
  let d := GostCipher64_DecryptionECB e.cipher e.destination (some ControlECB_close) 32
  if !d.result then false else
  if memcmp (d.destination.getD []) Control_open 32 = 0 then false else
  true

/-- `GostCipher64_ControlCTR()`. -/
def GostCipher64_ControlCTR (shlUB : Nat → Nat) (cipher : GostCipher64_t) : Bool :=
  let r1 := GostCipher64_Init (some cipher)
  if !r1.1 then false else
  let r2 := GostCipher64_SetKey r1.2 (some Control_key)
  if !r2.1 then false else
  let r3 := GostCipher64_SetPermutation shlUB r2.2 (some GostCipher64_Permutation)
  if !r3.1 then false else
  let r4 := GostCipher64_SetIV r3.2 (some ControlCTR_IV) 4
  if !r4.1 then false else
  let r5 := GostCipher64_SetGammaPeriod r4.2 8
  if !r5.1 then false else
  let e := GostCipher64_EncryptionCTR r5.2 (some Control_result) (some Control_open) 32
  if !e.result then false else
  if memcmp (e.destination.getD []) ControlCTR_close 32 = 0 then false else
  let d := GostCipher64_DecryptionCTR e.cipher e.destination (some ControlCTR_close) 32
  if !d.result then false else
  if memcmp (d.destination.getD []) Control_open 32 = 0 then false else
  true

/-- The entry point `main` of `app.c`: the lines it prints. -/
def main (shlUB : Nat → Nat) (cipher : GostCipher64_t) : List String :=
  (if GostCipher64_ControlECB shlUB cipher then ["ECB error!"] else []) ++
  (if GostCipher64_ControlCTR shlUB cipher then ["CTR error!"] else [])

/-! ## Concrete data for the table validation -/

/-- The result of `1 << n` for `n ≥ 31` on a machine whose 32-bit shift takes
the count modulo 32 (the scalar shift instructions of x86-64 and AArch64). -/
def shlCountMod32 (n : Nat) : Nat := (1 <<< (n % 32)) % 2 ^ 32

/-- The result of `1 << n` for `n ≥ 31` on a machine that shifts the bit out. -/
def shlShiftOut (_ : Nat) : Nat := 0

/-- The built-in table with its first entry `0xc` replaced by `0x2c`; group 0
then holds no `0xc` and holds the value `0x2c` that is no nibble. -/
def aliasedTable : List Nat := GostCipher64_Permutation.set 0 0x2c

/-- The byte stored in `p8[j]` by the two assignments of the inner loop, as a
function of the byte `b` held there before. -/
def byteImage (permutation : List Nat) (j b : Nat) : Nat :=
  let b1 := ((b &&& 0xf0) ^^^ permutation.getD (16 * (2 * j) + (b &&& 0x0f)) 0) % 256
  ((b1 &&& 0x0f) ^^^ (permutation.getD (16 * (2 * j + 1) + ((b1 &&& 0xf0) >>> 4)) 0 <<< 4)) % 256

/-! ## Word-level reference cipher

These definitions follow the wording of the specification (nibbles, rotation,
Feistel state), not the C code; they are what the code is compared with. -/

/-- Reference substitution `S`: nibble `n` of the word (`n = 0` the least
significant, up to 7) is replaced by `table[16 n + nibble value]`. -/
def referenceSubstitution (table : List Nat) (w : Nat) : Nat :=
  (List.range 8).foldl (fun acc n => acc + table.getD (16 * n + w / 16 ^ n % 16) 0 * 16 ^ n) 0

/-- Reference left rotation of a 32-bit word by `r` bits. -/
def referenceRotl32 (w r : Nat) : Nat :=
  ((w <<< r) % 2 ^ 32) ||| (w >>> (32 - r))

/-- Reference round key `k_i` of the encryption. -/
def referenceEncryptionKey (roundKeys : List Nat) (i : Nat) : Nat :=
  if i < 24 then roundKeys.getD (i % 8) 0 else roundKeys.getD (7 - i % 8) 0

/-- Reference round `i` on the state `(lo, hi)`:
`t = rotl32(S((lo + k_i) mod 2^32), 11) XOR hi`, then `(lo, hi) := (t, lo)` for
`i < 31` and `hi := t` for `i = 31`. -/
def referenceRound (roundKeys table : List Nat) (st : Nat × Nat) (i : Nat) : Nat × Nat :=
  let t := referenceRotl32
    (referenceSubstitution table ((st.1 + referenceEncryptionKey roundKeys i) % 2 ^ 32)) 11 ^^^ st.2
  if i < 31 then (t, st.1) else (st.1, t)

/-- Reference encryption: the 32 rounds `i = 0..31` from `(lo, hi)`. -/
def referenceEncryption (roundKeys table : List Nat) (lo hi : Nat) : Nat × Nat :=
  (List.range 32).foldl (referenceRound roundKeys table) (lo, hi)

/-! # Lemmas and theorems -/

/-! ## The block transforms are mutually inverse -/

set_option maxRecDepth 100000 in
theorem encryptionRounds_ladder (c : GostCipher64_t) (s : Nat) :
    encryptionRounds c s = join64 (roundG c.data.permutation (rk c 0)
      (ladder c.data.permutation (middleKeys c) (roundF c.data.permutation (rk c 0) (split64 s)))) :=
  rfl

set_option maxRecDepth 100000 in
theorem decryptionRounds_ladder (c : GostCipher64_t) (s : Nat) :
    decryptionRounds c s = join64 (roundG c.data.permutation (rk c 0)
      (ladder c.data.permutation (middleKeys c).reverse
        (roundF c.data.permutation (rk c 0) (split64 s)))) :=
  rfl

theorem xor_xor_cancel (a b : Nat) : a ^^^ (a ^^^ b) = b := by
  rw [← Nat.xor_assoc, Nat.xor_self, Nat.zero_xor]

theorem roundBody_of_lt (permutation : List Nat) (key i : Nat) (p32 : Nat × Nat) (h : i < 31) :
    roundBody permutation key i p32 = roundF permutation key p32 := by
  simp [roundBody, roundF, roundValue, h]

theorem roundBody_of_not_lt (permutation : List Nat) (key i : Nat) (p32 : Nat × Nat)
    (h : ¬ i < 31) : roundBody permutation key i p32 = roundG permutation key p32 := by
  simp [roundBody, roundG, roundValue, h]

theorem roundF_swap_roundF (permutation : List Nat) (key : Nat) (p32 : Nat × Nat) :
    roundF permutation key (roundF permutation key p32).swap = p32.swap := by
  simp [roundF, xor_xor_cancel, Prod.swap]

theorem roundF_roundG (permutation : List Nat) (key : Nat) (p32 : Nat × Nat) :
    roundF permutation key (roundG permutation key p32) = p32.swap := by
  simp [roundF, roundG, xor_xor_cancel, Prod.swap]

theorem roundG_swap_roundF (permutation : List Nat) (key : Nat) (p32 : Nat × Nat) :
    roundG permutation key (roundF permutation key p32).swap = p32 := by
  simp [roundF, roundG, xor_xor_cancel]

theorem ladder_append (permutation : List Nat) (ks ks2 : List Nat) (p32 : Nat × Nat) :
    ladder permutation (ks ++ ks2) p32 = ladder permutation ks2 (ladder permutation ks p32) := by
  simp [ladder, List.foldl_append]

theorem ladder_reverse (permutation : List Nat) (ks : List Nat) (p32 : Nat × Nat) :
    ladder permutation ks.reverse (ladder permutation ks p32).swap = p32.swap := by
  induction ks generalizing p32 with
  | nil => rfl
  | cons k ks ih =>
    rw [List.reverse_cons, ladder_append]
    show ladder permutation [k]
      (ladder permutation ks.reverse (ladder permutation ks (roundF permutation k p32)).swap) = _
    rw [ih]
    exact roundF_swap_roundF permutation k p32

theorem roundValue_lt (permutation : List Nat) (key lo : Nat) :
    roundValue permutation key lo < 2 ^ 32 := by
  unfold roundValue
  apply Nat.xor_lt_two_pow
  · exact Nat.mod_lt _ (by norm_num)
  · exact lt_of_le_of_lt Nat.and_le_right (by norm_num)

theorem roundF_halves (permutation : List Nat) (key : Nat) (p32 : Nat × Nat)
    (h : Halves32 p32) : Halves32 (roundF permutation key p32) :=
  ⟨Nat.xor_lt_two_pow (roundValue_lt _ _ _) h.2, h.1⟩

theorem roundG_halves (permutation : List Nat) (key : Nat) (p32 : Nat × Nat)
    (h : Halves32 p32) : Halves32 (roundG permutation key p32) :=
  ⟨h.1, Nat.xor_lt_two_pow (roundValue_lt _ _ _) h.2⟩

theorem ladder_halves (permutation : List Nat) (ks : List Nat) (p32 : Nat × Nat)
    (h : Halves32 p32) : Halves32 (ladder permutation ks p32) := by
  induction ks generalizing p32 with
  | nil => exact h
  | cons k ks ih => exact ih _ (roundF_halves permutation k p32 h)

theorem split64_halves (v : Nat) : Halves32 (split64 v) :=
  ⟨Nat.mod_lt _ (by norm_num), Nat.mod_lt _ (by norm_num)⟩

theorem join64_lt (p32 : Nat × Nat) (h : Halves32 p32) : join64 p32 < 2 ^ 64 := by
  obtain ⟨h1, h2⟩ := h
  unfold join64
  omega

theorem split64_join64 (p32 : Nat × Nat) (h : Halves32 p32) : split64 (join64 p32) = p32 := by
  obtain ⟨h1, h2⟩ := h
  unfold split64 join64
  ext <;> simp <;> omega

theorem join64_split64 (v : Nat) (h : v < 2 ^ 64) : join64 (split64 v) = v := by
  unfold split64 join64
  simp only
  omega

theorem encryptionRounds_lt (c : GostCipher64_t) (s : Nat) : encryptionRounds c s < 2 ^ 64 := by
  rw [encryptionRounds_ladder]
  exact join64_lt _ (roundG_halves _ _ _ (ladder_halves _ _ _
    (roundF_halves _ _ _ (split64_halves s))))

theorem decryptionRounds_lt (c : GostCipher64_t) (s : Nat) : decryptionRounds c s < 2 ^ 64 := by
  rw [decryptionRounds_ladder]
  exact join64_lt _ (roundG_halves _ _ _ (ladder_halves _ _ _
    (roundF_halves _ _ _ (split64_halves s))))

theorem decryptionRounds_encryptionRounds (c : GostCipher64_t) (b : Nat) (hb : b < 2 ^ 64) :
    decryptionRounds c (encryptionRounds c b) = b := by
  rw [encryptionRounds_ladder, decryptionRounds_ladder, split64_join64, roundF_roundG,
    ladder_reverse, roundG_swap_roundF, join64_split64 b hb]
  exact roundG_halves _ _ _ (ladder_halves _ _ _ (roundF_halves _ _ _ (split64_halves b)))

theorem encryptionRounds_decryptionRounds (c : GostCipher64_t) (b : Nat) (hb : b < 2 ^ 64) :
    encryptionRounds c (decryptionRounds c b) = b := by
  rw [encryptionRounds_ladder, decryptionRounds_ladder, split64_join64, roundF_roundG]
  · have h := ladder_reverse c.data.permutation (middleKeys c).reverse
      (roundF c.data.permutation (rk c 0) (split64 b))
    rw [List.reverse_reverse] at h
    rw [h, roundG_swap_roundF, join64_split64 b hb]
  · exact roundG_halves _ _ _ (ladder_halves _ _ _ (roundF_halves _ _ _ (split64_halves b)))

/-! ## Byte views -/

theorem length_toBytesLE (n v : Nat) : (toBytesLE n v).length = n := by
  induction n generalizing v with
  | zero => rfl
  | succ n ih => simp [toBytesLE, ih]

theorem ofBytesLE_toBytesLE (n v : Nat) : ofBytesLE (toBytesLE n v) = v % 256 ^ n := by
  induction n generalizing v with
  | zero => simp [toBytesLE, ofBytesLE, Nat.mod_one]
  | succ n ih =>
    simp only [toBytesLE, ofBytesLE, ih]
    rw [pow_succ, Nat.mul_comm (256 ^ n) 256, Nat.mod_mul, Nat.add_comm]

theorem ofBytesLE_lt (bs : List Nat) (h : ∀ b ∈ bs, b < 256) :
    ofBytesLE bs < 256 ^ bs.length := by
  induction bs with
  | nil => simp [ofBytesLE]
  | cons b bs ih =>
    have hb : b < 256 := h b (by simp)
    have := ih (fun x hx => h x (by simp [hx]))
    simp only [ofBytesLE, List.length_cons, pow_succ]
    omega

theorem toBytesLE_ofBytesLE (bs : List Nat) (h : ∀ b ∈ bs, b < 256) :
    toBytesLE bs.length (ofBytesLE bs) = bs := by
  induction bs with
  | nil => rfl
  | cons b bs ih =>
    have hb : b < 256 := h b (by simp)
    have := ih (fun x hx => h x (by simp [hx]))
    simp only [List.length_cons, toBytesLE, ofBytesLE]
    rw [show (b + 256 * ofBytesLE bs) % 256 = b by omega,
      show (b + 256 * ofBytesLE bs) / 256 = ofBytesLE bs by omega, this]

theorem load64_lt (source : List Nat) (k : Nat) (h : ∀ b ∈ source, b < 256) :
    load64 source k < 2 ^ 64 := by
  unfold load64
  have hb : ∀ b ∈ (source.drop (8 * k)).take 8, b < 256 :=
    fun b hb => h b (List.mem_of_mem_drop (List.mem_of_mem_take hb))
  have h1 := ofBytesLE_lt _ hb
  have h2 : ((source.drop (8 * k)).take 8).length ≤ 8 := by simp
  calc ofBytesLE ((source.drop (8 * k)).take 8)
      < 256 ^ ((source.drop (8 * k)).take 8).length := h1
    _ ≤ 256 ^ 8 := Nat.pow_le_pow_right (by norm_num) h2
    _ = 2 ^ 64 := by norm_num

theorem toBytesLE_load64 (source : List Nat) (k : Nat) (h : ∀ b ∈ source, b < 256)
    (hk : 8 * k + 8 ≤ source.length) :
    toBytesLE 8 (load64 source k) = (source.drop (8 * k)).take 8 := by
  unfold load64
  have hb : ∀ b ∈ (source.drop (8 * k)).take 8, b < 256 :=
    fun b hb => h b (List.mem_of_mem_drop (List.mem_of_mem_take hb))
  have hl : ((source.drop (8 * k)).take 8).length = 8 := by
    simp only [List.length_take, List.length_drop]; omega
  have := toBytesLE_ofBytesLE _ hb
  rwa [hl] at this

theorem load64_append_left (a b : List Nat) (k : Nat) (hk : 8 * k + 8 ≤ a.length) :
    load64 (a ++ b) k = load64 a k := by
  unfold load64
  rw [List.drop_append_of_le_length (by omega), List.take_append_of_le_length]
  simp only [List.length_drop]; omega

theorem load64_append_right (a b : List Nat) (k : Nat) (hk : a.length = 8 * k) :
    load64 (a ++ b) k = ofBytesLE (b.take 8) := by
  unfold load64
  rw [List.drop_left' hk]

/-! ## ECB loops -/

theorem length_ecbImage (f : Nat → Nat) (source : List Nat) (n : Nat) :
    (ecbImage f source n).length = 8 * n := by
  induction n with
  | zero => rfl
  | succ n ih => simp [ecbImage, ih, length_toBytesLE]; omega

theorem store64_append (a d : List Nat) (k v : Nat) (ha : a.length = 8 * k) :
    store64 (a ++ d) k v = a ++ toBytesLE 8 v ++ d.drop 8 := by
  unfold store64 memcpy
  rw [List.take_left' ha, List.take_of_length_le (by rw [length_toBytesLE]),
    List.drop_append_eq_append_drop, ha]
  have : a.drop (8 * k + 8) = [] := List.drop_of_length_le (by omega)
  rw [this]
  simp

theorem encryptionECB_loop (c : GostCipher64_t) (s d : List Nat) (n : Nat) :
    (List.range n).foldl (encryptionECBBody c s) (true, d) =
      (true, ecbImage (encryptionRounds c) s n ++ d.drop (8 * n)) := by
  induction n with
  | zero => simp [ecbImage]
  | succ n ih =>
    rw [List.range_succ, List.foldl_append, ih]
    simp only [List.foldl_cons, List.foldl_nil, encryptionECBBody, GostCipher64_EncryptionBlock,
      if_true]
    rw [Nat.mul_div_cancel_left n (by norm_num : 0 < 8),
      store64_append _ _ _ _ (length_ecbImage _ _ _)]
    simp [ecbImage, Nat.mul_succ]

theorem decryptionECB_loop (c : GostCipher64_t) (s d : List Nat) (n : Nat) :
    (List.range n).foldl (decryptionECBBody c s) (true, d) =
      (true, ecbImage (decryptionRounds c) s n ++ d.drop (8 * n)) := by
  induction n with
  | zero => simp [ecbImage]
  | succ n ih =>
    rw [List.range_succ, List.foldl_append, ih]
    simp only [List.foldl_cons, List.foldl_nil, decryptionECBBody, GostCipher64_DecryptionBlock,
      if_true]
    rw [Nat.mul_div_cancel_left n (by norm_num : 0 < 8),
      store64_append _ _ _ _ (length_ecbImage _ _ _)]
    simp [ecbImage, Nat.mul_succ]

theorem load64_ecbImage (f : Nat → Nat) (source : List Nat) (n k : Nat) (hk : k < n) :
    load64 (ecbImage f source n) k = f (load64 source k) % 2 ^ 64 := by
  induction n with
  | zero => omega
  | succ n ih =>
    simp only [ecbImage]
    by_cases h : k < n
    · rw [load64_append_left _ _ _ (by rw [length_ecbImage]; omega), ih h]
    · have hkn : k = n := by omega
      subst hkn
      rw [load64_append_right _ _ _ (length_ecbImage _ _ _),
        List.take_of_length_le (by rw [length_toBytesLE]), ofBytesLE_toBytesLE]
      norm_num

theorem ecbImage_congr (f g : Nat → Nat) (s t : List Nat) (n : Nat)
    (h : ∀ k, k < n → f (load64 s k) = g (load64 t k)) : ecbImage f s n = ecbImage g t n := by
  induction n with
  | zero => rfl
  | succ n ih =>
    simp only [ecbImage]
    rw [ih (fun k hk => h k (by omega)), h n (by omega)]

theorem ecbImage_id (x : List Nat) (n : Nat) (hx : ∀ b ∈ x, b < 256) (hn : 8 * n ≤ x.length) :
    ecbImage (fun v => v) x n = x.take (8 * n) := by
  induction n with
  | zero => simp [ecbImage]
  | succ n ih =>
    simp only [ecbImage]
    rw [ih (by omega), toBytesLE_load64 x n hx (by omega), Nat.mul_succ, List.take_add]

theorem encryptionECB_eq (c : GostCipher64_t) (d s : List Nat) (length : Nat)
    (h0 : 0 < length) (h8 : length % 8 = 0) (hd : d.length = length) :
    GostCipher64_EncryptionECB (some c) (some d) (some s) length =
      ⟨true, some c, some (ecbImage (encryptionRounds c) s (length / 8))⟩ := by
  have hne : ¬ (length = 0 ∨ length % 8 ≠ 0) := by omega
  simp only [GostCipher64_EncryptionECB, hne, if_false, encryptionECB_loop]
  rw [List.drop_of_length_le (by omega)]
  simp

theorem decryptionECB_eq (c : GostCipher64_t) (d s : List Nat) (length : Nat)
    (h0 : 0 < length) (h8 : length % 8 = 0) (hd : d.length = length) :
    GostCipher64_DecryptionECB (some c) (some d) (some s) length =
      ⟨true, some c, some (ecbImage (decryptionRounds c) s (length / 8))⟩ := by
  have hne : ¬ (length = 0 ∨ length % 8 ≠ 0) := by omega
  simp only [GostCipher64_DecryptionECB, hne, if_false, decryptionECB_loop]
  rw [List.drop_of_length_le (by omega)]
  simp

theorem ecbImage_decryption_encryption (c : GostCipher64_t) (x : List Nat) (n : Nat)
    (hx : ∀ b ∈ x, b < 256) (hn : x.length = 8 * n) :
    ecbImage (decryptionRounds c) (ecbImage (encryptionRounds c) x n) n = x := by
  have h1 : ecbImage (decryptionRounds c) (ecbImage (encryptionRounds c) x n) n =
      ecbImage (fun v => v) x n := by
    apply ecbImage_congr
    intro k hk
    rw [load64_ecbImage _ _ _ _ hk, Nat.mod_eq_of_lt (encryptionRounds_lt _ _),
      decryptionRounds_encryptionRounds c _ (load64_lt x k hx)]
  rw [h1, ecbImage_id x n hx (by omega), ← hn, List.take_length]

/-! ## CTR loop -/

theorem split64_mod (s : Nat) : split64 (s % 2 ^ 64) = split64 s := by
  unfold split64
  ext <;> simp <;> omega

theorem encryptionRounds_mod (c : GostCipher64_t) (s : Nat) :
    encryptionRounds c (s % 2 ^ 64) = encryptionRounds c s := by
  unfold encryptionRounds
  rw [split64_mod]

theorem length_ctrImage (c : GostCipher64_t) (s : List Nat) (n : Nat) :
    (ctrImage c s n).length = n := by
  simp [ctrImage]

theorem ctrImage_succ (c : GostCipher64_t) (s : List Nat) (n : Nat) :
    ctrImage c s (n + 1) = ctrImage c s n ++ [s.getD n 0 ^^^ ctrStream c n] := by
  simp [ctrImage, List.range_succ]

theorem getD_ctrImage (c : GostCipher64_t) (s : List Nat) (n i : Nat) (hi : i < n) :
    (ctrImage c s n).getD i 0 = s.getD i 0 ^^^ ctrStream c i := by
  simp [ctrImage, List.getD_eq_getElem?_getD, List.getElem?_map, List.getElem?_range, hi]

theorem set_append_drop (a d : List Nat) (n v : Nat) (ha : a.length = n) (hn : n < d.length) :
    (a ++ d.drop n).set n v = a ++ [v] ++ d.drop (n + 1) := by
  rw [List.set_append, if_neg (by omega), ha, Nat.sub_self, List.drop_eq_getElem_cons hn]
  simp only [List.set_cons_zero, List.append_assoc, List.singleton_append]

theorem encryptionCTR_loop (c : GostCipher64_t) (s d : List Nat) (n : Nat) (hn : n ≤ d.length) :
    ∃ counter gamma,
      (List.range n).foldl (encryptionCTRBody c s) (initialCounter c, 0, d) =
        (counter, gamma, ctrImage c s n ++ d.drop n) ∧
      counter % 2 ^ 64 = (initialCounter c + (n + 7) / 8) % 2 ^ 64 ∧
      (n % 8 ≠ 0 → gamma = encryptionRounds c ((initialCounter c + n / 8) % 2 ^ 64)) := by
  induction n with
  | zero => exact ⟨initialCounter c, 0, by simp [ctrImage], by simp, by simp⟩
  | succ n ih =>
    obtain ⟨counter, gamma, hfold, hcounter, hgamma⟩ := ih (by omega)
    have hg : (if n % 8 = 0 then
          (GostCipher64_EncryptionBlock (some c) (some gamma) (some counter)).2.getD gamma
        else gamma) = encryptionRounds c ((initialCounter c + n / 8) % 2 ^ 64) := by
      by_cases h8 : n % 8 = 0
      · simp only [h8, if_true, GostCipher64_EncryptionBlock, Option.getD_some]
        rw [← encryptionRounds_mod c counter, hcounter]
        congr 2
        omega
      · simp only [h8, if_false]
        exact hgamma h8
    refine ⟨if n % 8 = 0 then (counter + 1) % 2 ^ 64 else counter,
      encryptionRounds c ((initialCounter c + n / 8) % 2 ^ 64), ?_, ?_, ?_⟩
    · rw [List.range_succ, List.foldl_append, hfold]
      simp only [List.foldl_cons, List.foldl_nil, encryptionCTRBody, hg]
      rw [set_append_drop _ _ _ _ (length_ctrImage _ _ _) (by omega), ctrImage_succ]
      rfl
    · by_cases h8 : n % 8 = 0
      · simp only [h8, if_true]
        norm_num at hcounter ⊢
        omega
      · simp only [h8, if_false]
        rw [hcounter]
        congr 2
        omega
    · intro h
      congr 2
      omega

theorem encryptionCTR_eq (c : GostCipher64_t) (d s : List Nat) (length : Nat)
    (h0 : 0 < length) (hiv : c.settings.IVLength = 4) (hd : d.length = length) :
    GostCipher64_EncryptionCTR (some c) (some d) (some s) length =
      ⟨true, some c, some (ctrImage c s length)⟩ := by
  obtain ⟨counter, gamma, hfold, -, -⟩ := encryptionCTR_loop c s d length (by omega)
  have hne : length ≠ 0 := by omega
  simp only [GostCipher64_EncryptionCTR, hne, hiv, if_false, ne_eq, not_true_eq_false, hfold]
  rw [List.drop_of_length_le (by omega)]
  simp

theorem ctrImage_ctrImage (c : GostCipher64_t) (x : List Nat) (n : Nat) (hn : x.length = n) :
    ctrImage c (ctrImage c x n) n = x := by
  apply List.ext_getElem
  · rw [length_ctrImage, hn]
  · intro i h1 h2
    have hi : i < n := by rwa [length_ctrImage] at h1
    have h3 := getD_ctrImage c (ctrImage c x n) n i hi
    rw [getD_ctrImage c x n i hi] at h3
    rw [List.getD_eq_getElem _ _ h1, Nat.xor_assoc, Nat.xor_self, Nat.xor_zero,
      List.getD_eq_getElem _ _ h2] at h3
    exact h3

/-! ## Table validation -/

theorem shiftOne_of_lt (shlUB : Nat → Nat) (n : Nat) (h : n < 31) :
    shiftOne shlUB n = 2 ^ n := by
  simp [shiftOne, h, Nat.one_shiftLeft]

theorem getD_lt_of_forall_mem (p : List Nat) (k m : Nat) (hm : 0 < m) (h : ∀ b ∈ p, b < m) :
    p.getD k 0 < m := by
  rw [List.getD_eq_getElem?_getD]
  cases hk : p[k]? with
  | none => simpa using hm
  | some v => exact h v (List.getElem?_mem hk)

theorem permutationFlags_of_lt (shlUB : Nat → Nat) (p : List Nat) (i : Nat)
    (h : ∀ b ∈ p, b < 31) :
    permutationFlags shlUB p i =
      (List.range 16).foldl (fun flags j => (flags ||| 2 ^ p.getD (16 * i + j) 0) % 2 ^ 16) 0 := by
  unfold permutationFlags
  congr 1
  funext flags j
  rw [shiftOne_of_lt shlUB _ (getD_lt_of_forall_mem p _ 31 (by norm_num) h)]

theorem permutationFlags_congr (shlUB1 shlUB2 : Nat → Nat) (p : List Nat) (i : Nat)
    (h : ∀ b ∈ p, b < 31) : permutationFlags shlUB1 p i = permutationFlags shlUB2 p i := by
  rw [permutationFlags_of_lt shlUB1 p i h, permutationFlags_of_lt shlUB2 p i h]

set_option maxRecDepth 100000 in
theorem builtin_flags (shlUB : Nat → Nat) :
    (List.range 8).all (fun i => permutationFlags shlUB GostCipher64_Permutation i == 0xffff)
      = true := by
  have h : ∀ b ∈ GostCipher64_Permutation, b < 31 := by decide
  have h0 : (List.range 8).all
      (fun i => permutationFlags (fun _ => 0) GostCipher64_Permutation i == 0xffff) = true := by
    decide
  rw [← h0]
  congr 1
  funext i
  rw [permutationFlags_congr shlUB (fun _ => 0) _ i h]

theorem setPermutation_builtin (shlUB : Nat → Nat) (c : GostCipher64_t) :
    GostCipher64_SetPermutation shlUB (some c) (some GostCipher64_Permutation) =
      (true, some { c with data := { c.data with permutation := GostCipher64_Permutation } }) := by
  simp only [GostCipher64_SetPermutation, builtin_flags, if_true]
  rfl

theorem flags_testBit (x : Nat → Nat) (js : List Nat) (f0 k : Nat) :
    (js.foldl (fun flags j => (flags ||| 2 ^ x j) % 2 ^ 16) f0).testBit k =
      (decide (k < 16) && f0.testBit k || js.any (fun j => decide (k < 16) && decide (x j = k)))
      ∨ js = [] := by
  induction js generalizing f0 with
  | nil => right; rfl
  | cons j js ih =>
    left
    rcases ih ((f0 ||| 2 ^ x j) % 2 ^ 16) with h | h
    · rw [List.foldl_cons, h]
      simp only [Nat.testBit_mod_two_pow, Nat.testBit_or, Nat.testBit_two_pow, List.any_cons]
      cases decide (k < 16) <;> cases f0.testBit k <;> cases decide (x j = k) <;> simp
    · subst h
      simp only [List.foldl_cons, List.foldl_nil, Nat.testBit_mod_two_pow, Nat.testBit_or,
        Nat.testBit_two_pow, List.any_cons, List.any_nil]
      cases decide (k < 16) <;> cases f0.testBit k <;> cases decide (x j = k) <;> simp

theorem flags_range_testBit (x : Nat → Nat) (k : Nat) :
    ((List.range 16).foldl (fun flags j => (flags ||| 2 ^ x j) % 2 ^ 16) 0).testBit k =
      (List.range 16).any (fun j => decide (k < 16) && decide (x j = k)) := by
  rcases flags_testBit x (List.range 16) 0 k with h | h
  · rw [h]; simp
  · exact absurd h (by decide)

theorem flags_full_iff (x : Nat → Nat) :
    (List.range 16).foldl (fun flags j => (flags ||| 2 ^ x j) % 2 ^ 16) 0 = 0xffff ↔
      ∀ k, k < 16 → ∃ j, j < 16 ∧ x j = k := by
  constructor
  · intro h k hk
    have h1 := flags_range_testBit x k
    rw [h] at h1
    have h2 : Nat.testBit 0xffff k = true := by
      have := Nat.testBit_two_pow_sub_one 16 k
      simpa [hk] using this
    rw [h2] at h1
    have h3 := List.any_eq_true.mp h1.symm
    obtain ⟨j, hj, hp⟩ := h3
    simp only [Bool.and_eq_true, decide_eq_true_eq] at hp
    exact ⟨j, List.mem_range.mp hj, hp.2⟩
  · intro h
    apply Nat.eq_of_testBit_eq
    intro k
    rw [flags_range_testBit x k]
    have h2 : Nat.testBit 0xffff k = decide (k < 16) := Nat.testBit_two_pow_sub_one 16 k
    rw [h2]
    by_cases hk : k < 16
    · obtain ⟨j, hj, hx⟩ := h k hk
      simp only [hk, decide_True, Bool.true_and]
      exact List.any_eq_true.mpr ⟨j, List.mem_range.mpr hj, by simp [hx]⟩
    · simp [hk]

theorem count_eq_one_iff_cover (g : List Nat) (hg : g.length = 16) :
    (∀ k, k < 16 → k ∈ g) ↔ ∀ v, v < 16 → g.count v = 1 := by
  constructor
  · intro h
    have hsub : List.range 16 ⊆ g := fun k hk => h k (List.mem_range.mp hk)
    have hperm : List.Perm (List.range 16) g :=
      (List.subperm_of_subset (List.nodup_range 16) hsub).perm_of_length_le (by simp [hg])
    intro v hv
    rw [← hperm.count_eq v]
    exact List.count_eq_one_of_mem (List.nodup_range 16) (List.mem_range.mpr hv)
  · intro h k hk
    exact List.count_pos_iff.mp (by rw [h k hk]; norm_num)

theorem group_mem_iff (table : List Nat) (i k : Nat) (ht : table.length = 128) (hi : i < 8) :
    (∃ j, j < 16 ∧ table.getD (16 * i + j) 0 = k) ↔ k ∈ (table.drop (16 * i)).take 16 := by
  have hlen : ((table.drop (16 * i)).take 16).length = 16 := by
    simp only [List.length_take, List.length_drop]; omega
  rw [List.mem_iff_getElem]
  constructor
  · rintro ⟨j, hj, hx⟩
    refine ⟨j, by omega, ?_⟩
    rw [← hx, List.getD_eq_getElem _ _ (by omega)]
    simp
  · rintro ⟨j, hj, hx⟩
    refine ⟨j, by omega, ?_⟩
    rw [← hx, List.getD_eq_getElem _ _ (by omega)]
    simp

/-- On the tables for which C defines every shift of the validation loop
(entries below 31), `GostCipher64_SetPermutation` accepts exactly the tables
whose 8 groups hold every value 0..15 once, whatever the target machine does
with larger shift counts. -/
theorem setPermutation_accepts_iff (shlUB : Nat → Nat) (c : GostCipher64_t) (table : List Nat)
    (ht : table.length = 128) (hlt : ∀ b ∈ table, b < 31) :
    (GostCipher64_SetPermutation shlUB (some c) (some table)).1 = true ↔
      ∀ i, i < 8 → ∀ v, v < 16 → ((table.drop (16 * i)).take 16).count v = 1 := by
  have hflags : (GostCipher64_SetPermutation shlUB (some c) (some table)).1 = true ↔
      ∀ i, i < 8 → permutationFlags shlUB table i = 0xffff := by
    by_cases h : (List.range 8).all (fun i => permutationFlags shlUB table i == 0xffff) = true
    · simp only [GostCipher64_SetPermutation, h, if_true, true_iff]
      intro i hi
      have := List.all_eq_true.mp h i (List.mem_range.mpr hi)
      simpa using this
    · simp only [GostCipher64_SetPermutation, h, if_false, Bool.false_eq_true, false_iff]
      intro hall
      apply h
      rw [List.all_eq_true]
      intro i hi
      simpa using hall i (List.mem_range.mp hi)
  rw [hflags]
  constructor
  · intro h i hi
    have h1 := h i hi
    rw [permutationFlags_of_lt shlUB table i hlt,
      flags_full_iff (fun j => table.getD (16 * i + j) 0)] at h1
    have hlen : ((table.drop (16 * i)).take 16).length = 16 := by
      simp only [List.length_take, List.length_drop]; omega
    exact (count_eq_one_iff_cover _ hlen).mp
      (fun k hk => (group_mem_iff table i k ht hi).mp (h1 k hk))
  · intro h i hi
    rw [permutationFlags_of_lt shlUB table i hlt,
      flags_full_iff (fun j => table.getD (16 * i + j) 0)]
    have hlen : ((table.drop (16 * i)).take 16).length = 16 := by
      simp only [List.length_take, List.length_drop]; omega
    intro k hk
    exact (group_mem_iff table i k ht hi).mpr
      ((count_eq_one_iff_cover _ hlen).mpr (h i hi) k hk)

theorem lt_of_group_counts (g : List Nat) (hg : g.length = 16)
    (h : ∀ v, v < 16 → g.count v = 1) : ∀ b ∈ g, b < 16 := by
  have hsub : List.range 16 ⊆ g :=
    fun k hk => (count_eq_one_iff_cover g hg).mpr h k (List.mem_range.mp hk)
  have hperm : List.Perm (List.range 16) g :=
    (List.subperm_of_subset (List.nodup_range 16) hsub).perm_of_length_le (by simp [hg])
  intro b hb
  exact List.mem_range.mp (hperm.mem_iff.mpr hb)

theorem lt_of_table_counts (table : List Nat) (ht : table.length = 128)
    (h : ∀ i, i < 8 → ∀ v, v < 16 → ((table.drop (16 * i)).take 16).count v = 1) :
    ∀ b ∈ table, b < 16 := by
  intro b hb
  obtain ⟨n, hn, hb⟩ := List.mem_iff_getElem.mp hb
  have hi : n / 16 < 8 := by omega
  have hlen : ((table.drop (16 * (n / 16))).take 16).length = 16 := by
    simp only [List.length_take, List.length_drop]; omega
  apply lt_of_group_counts _ hlen (h (n / 16) hi) b
  rw [← group_mem_iff table (n / 16) b ht hi]
  refine ⟨n % 16, Nat.mod_lt _ (by norm_num), ?_⟩
  rw [Nat.div_add_mod, List.getD_eq_getElem _ _ hn, hb]

/-- Every table of 8 permutations of 0..15 is accepted, whatever the target
machine does with large shift counts. -/
theorem setPermutation_accepts_permutations (shlUB : Nat → Nat) (c : GostCipher64_t)
    (table : List Nat) (ht : table.length = 128)
    (h : ∀ i, i < 8 → ∀ v, v < 16 → ((table.drop (16 * i)).take 16).count v = 1) :
    GostCipher64_SetPermutation shlUB (some c) (some table) =
      (true, some { c with data := { c.data with permutation := table } }) := by
  have hlt : ∀ b ∈ table, b < 31 := fun b hb => by
    have := lt_of_table_counts table ht h b hb
    omega
  have hacc := (setPermutation_accepts_iff shlUB c table ht hlt).mpr h
  have htake : table.take 128 = table := List.take_of_length_le (by omega)
  by_cases hall : (List.range 8).all (fun i => permutationFlags shlUB table i == 0xffff) = true
  · simp only [GostCipher64_SetPermutation, hall, if_true, htake]
  · simp [GostCipher64_SetPermutation, hall] at hacc

/-! ## Key schedule -/

theorem ofBytesLE_take_four (m : List Nat) :
    ofBytesLE (m.take 4) =
      m.getD 0 0 + 256 * m.getD 1 0 + 65536 * m.getD 2 0 + 16777216 * m.getD 3 0 := by
  rcases m with _ | ⟨a, _ | ⟨b, _ | ⟨c, _ | ⟨d, m⟩⟩⟩⟩ <;> simp [ofBytesLE] <;> omega

theorem getD_drop (l : List Nat) (n j : Nat) : (l.drop n).getD j 0 = l.getD (n + j) 0 := by
  simp [List.getD_eq_getElem?_getD, List.getElem?_drop]

theorem keyWord_eq (key : List Nat) (w : Nat) :
    keyWord key w = key.getD (4 * w) 0 + 256 * key.getD (4 * w + 1) 0 +
      65536 * key.getD (4 * w + 2) 0 + 16777216 * key.getD (4 * w + 3) 0 := by
  unfold keyWord
  rw [ofBytesLE_take_four, getD_drop, getD_drop, getD_drop, getD_drop]
  rfl

/-! ## Blocks of the ECB output and bytes of the CTR keystream -/

theorem block_append_left (a b : List Nat) (k : Nat) (hk : 8 * k + 8 ≤ a.length) :
    ((a ++ b).drop (8 * k)).take 8 = (a.drop (8 * k)).take 8 := by
  rw [List.drop_append_of_le_length (by omega), List.take_append_of_le_length]
  simp only [List.length_drop]; omega

theorem block_ecbImage (f : Nat → Nat) (source : List Nat) (n k : Nat) (hk : k < n) :
    ((ecbImage f source n).drop (8 * k)).take 8 = toBytesLE 8 (f (load64 source k)) := by
  induction n with
  | zero => omega
  | succ n ih =>
    simp only [ecbImage]
    by_cases h : k < n
    · rw [block_append_left _ _ _ (by rw [length_ecbImage]; omega), ih h]
    · have hkn : k = n := by omega
      subst hkn
      rw [List.drop_left' (length_ecbImage _ _ _),
        List.take_of_length_le (by rw [length_toBytesLE])]

theorem getD_toBytesLE (n v j : Nat) (hj : j < n) :
    (toBytesLE n v).getD j 0 = v / 256 ^ j % 256 := by
  induction n generalizing v j with
  | zero => omega
  | succ n ih =>
    cases j with
    | zero => simp [toBytesLE]
    | succ j =>
      simp only [toBytesLE, List.getD_cons_succ]
      rw [ih (v / 256) j (by omega), Nat.div_div_eq_div_mul, pow_succ, Nat.mul_comm]

theorem ctrStream_eq (c : GostCipher64_t) (g i : Nat) :
    ctrStream c i =
      (GostCipher64_EncryptionBlock (some c) (some g)
        (some ((initialCounter c + i / 8) % 2 ^ 64))).2.getD 0 / 256 ^ (i % 8) % 256 := by
  unfold ctrStream
  rw [getD_toBytesLE 8 _ (i % 8) (Nat.mod_lt _ (by norm_num))]
  rfl

/-! ## The initial CTR counter -/

theorem initialCounter_eq (c : GostCipher64_t) (iv : List Nat) (hIV : c.data.IV = some iv)
    (hlen : iv.length = 4) (hiv : c.settings.IVLength = 4) :
    initialCounter c = 2 ^ 32 * ofBytesLE iv := by
  obtain _ | ⟨a0, _ | ⟨a1, _ | ⟨a2, _ | ⟨a3, _ | ⟨a4, iv⟩⟩⟩⟩⟩ := iv <;>
    simp at hlen
  simp only [initialCounter, hIV, hiv, Option.getD_some, memcpy, toBytesLE]
  simp [ofBytesLE]
  omega

theorem initialCounter_lt (c : GostCipher64_t) (iv : List Nat) (hIV : c.data.IV = some iv)
    (hlen : iv.length = 4) (hiv : c.settings.IVLength = 4) (hb : ∀ b ∈ iv, b < 256) :
    initialCounter c < 2 ^ 64 := by
  rw [initialCounter_eq c iv hIV hlen hiv]
  have := ofBytesLE_lt iv hb
  rw [hlen] at this
  omega

/-! ## The byte-wise substitution and the rotation against the reference -/

set_option maxRecDepth 100000 in
theorem byte_first_assignment :
    ∀ b, b < 256 → ∀ e, e < 16 →
      (b &&& 0x0f = b % 16) ∧ ((b &&& 0xf0) ^^^ e) % 256 = 16 * (b / 16) + e := by
  decide

set_option maxRecDepth 100000 in
theorem byte_second_assignment :
    ∀ b, b < 256 → ∀ e, e < 16 →
      ((b &&& 0xf0) >>> 4 = b / 16) ∧ ((b &&& 0x0f) ^^^ (e <<< 4)) % 256 = b % 16 + 16 * e := by
  decide

theorem substituteByte_eq (T p8 : List Nat) (j : Nat) (hj : j < p8.length) :
    substituteByte T p8 j = p8.set j (byteImage T j (p8.getD j 0)) := by
  simp [substituteByte, byteImage, List.getD_eq_getElem?_getD, hj]

theorem substitute_bytes (T : List Nat) (t : Nat) :
    substitute T t = ofBytesLE
      [byteImage T 0 (t % 256), byteImage T 1 (t / 256 % 256),
       byteImage T 2 (t / 256 / 256 % 256), byteImage T 3 (t / 256 / 256 / 256 % 256)] := by
  unfold substitute
  rw [show List.range 4 = [0, 1, 2, 3] from rfl]
  simp only [toBytesLE, List.foldl_cons, List.foldl_nil]
  rw [substituteByte_eq _ _ 0 (by simp), List.getD_cons_zero, List.set_cons_zero]
  rw [substituteByte_eq _ _ 1 (by simp)]
  simp only [List.getD_cons_succ, List.getD_cons_zero, List.set_cons_succ, List.set_cons_zero]
  rw [substituteByte_eq _ _ 2 (by simp)]
  simp only [List.getD_cons_succ, List.getD_cons_zero, List.set_cons_succ, List.set_cons_zero]
  rw [substituteByte_eq _ _ 3 (by simp)]
  simp only [List.getD_cons_succ, List.getD_cons_zero, List.set_cons_succ, List.set_cons_zero]

theorem byteImage_eq (T : List Nat) (hT : ∀ e ∈ T, e < 16) (j b : Nat) (hb : b < 256) :
    byteImage T j b =
      T.getD (16 * (2 * j) + b % 16) 0 + 16 * T.getD (16 * (2 * j + 1) + b / 16) 0 := by
  unfold byteImage
  have h1 := byte_first_assignment b hb
  have hidx : b &&& 0x0f = b % 16 := (h1 0 (by norm_num)).1
  rw [hidx]
  have he0 : T.getD (16 * (2 * j) + b % 16) 0 < 16 :=
    getD_lt_of_forall_mem T _ 16 (by norm_num) hT
  have hb1 := (h1 _ he0).2
  simp only [hb1]
  have hlt : 16 * (b / 16) + T.getD (16 * (2 * j) + b % 16) 0 < 256 := by omega
  have h2 := byte_second_assignment _ hlt
  have hidx2 := (h2 0 (by norm_num)).1
  rw [hidx2]
  have hq : (16 * (b / 16) + T.getD (16 * (2 * j) + b % 16) 0) / 16 = b / 16 := by omega
  rw [hq]
  have he1 : T.getD (16 * (2 * j + 1) + b / 16) 0 < 16 :=
    getD_lt_of_forall_mem T _ 16 (by norm_num) hT
  rw [(h2 _ he1).2]
  omega

theorem substitute_eq_reference (T : List Nat) (hT : ∀ e ∈ T, e < 16) (t : Nat) :
    substitute T t = referenceSubstitution T t := by
  rw [substitute_bytes,
    byteImage_eq T hT 0 _ (Nat.mod_lt _ (by norm_num)),
    byteImage_eq T hT 1 _ (Nat.mod_lt _ (by norm_num)),
    byteImage_eq T hT 2 _ (Nat.mod_lt _ (by norm_num)),
    byteImage_eq T hT 3 _ (Nat.mod_lt _ (by norm_num))]
  unfold referenceSubstitution
  rw [show List.range 8 = [0, 1, 2, 3, 4, 5, 6, 7] from rfl]
  simp only [List.foldl_cons, List.foldl_nil, ofBytesLE]
  have h0 : t % 256 % 16 = t / 16 ^ 0 % 16 := by norm_num
  have h1 : t % 256 / 16 = t / 16 ^ 1 % 16 := by norm_num; omega
  have h2 : t / 256 % 256 % 16 = t / 16 ^ 2 % 16 := by norm_num
  have h3 : t / 256 % 256 / 16 = t / 16 ^ 3 % 16 := by norm_num; omega
  have h4 : t / 256 / 256 % 256 % 16 = t / 16 ^ 4 % 16 := by norm_num; omega
  have h5 : t / 256 / 256 % 256 / 16 = t / 16 ^ 5 % 16 := by norm_num; omega
  have h6 : t / 256 / 256 / 256 % 256 % 16 = t / 16 ^ 6 % 16 := by norm_num; omega
  have h7 : t / 256 / 256 / 256 % 256 / 16 = t / 16 ^ 7 % 16 := by norm_num; omega
  rw [h0, h1, h2, h3, h4, h5, h6, h7]
  norm_num
  omega

theorem byteImage_lt (T : List Nat) (j b : Nat) : byteImage T j b < 256 :=
  Nat.mod_lt _ (by norm_num)

theorem substitute_lt (T : List Nat) (t : Nat) : substitute T t < 2 ^ 32 := by
  rw [substitute_bytes]
  have h := ofBytesLE_lt
    [byteImage T 0 (t % 256), byteImage T 1 (t / 256 % 256),
     byteImage T 2 (t / 256 / 256 % 256), byteImage T 3 (t / 256 / 256 / 256 % 256)]
    (by
      intro b hb
      simp only [List.mem_cons, List.mem_singleton, List.not_mem_nil, or_false] at hb
      rcases hb with h | h | h | h <;> rw [h] <;> exact byteImage_lt _ _ _)
  have h4 : (256 : Nat) ^ 4 = 2 ^ 32 := by norm_num
  rw [List.length_cons, List.length_cons, List.length_cons, List.length_singleton, h4] at h
  exact h

theorem rotation_eq_reference (s : Nat) (hs : s < 2 ^ 32) :
    ((s <<< 11) % 2 ^ 32) ^^^ ((s >>> 21) &&& 0x7FF) = referenceRotl32 s 11 := by
  unfold referenceRotl32
  apply Nat.eq_of_testBit_eq
  intro i
  have hmask : (0x7FF : Nat) = 2 ^ 11 - 1 := by norm_num
  rw [hmask]
  simp only [Nat.testBit_xor, Nat.testBit_or, Nat.testBit_mod_two_pow, Nat.testBit_shiftLeft,
    Nat.testBit_shiftRight, Nat.testBit_and, Nat.testBit_two_pow_sub_one]
  by_cases hi : i < 11
  · have h11 : ¬ (11 ≤ i) := by omega
    simp [hi, h11]
  · have hhigh : s.testBit (32 - 11 + i) = false :=
      Nat.testBit_lt_two_pow (lt_of_lt_of_le hs (Nat.pow_le_pow_right (by norm_num) (by omega)))
    have hhigh2 : s.testBit (21 + i) = false :=
      Nat.testBit_lt_two_pow (lt_of_lt_of_le hs (Nat.pow_le_pow_right (by norm_num) (by omega)))
    simp [hi, hhigh, hhigh2]

theorem roundBody_eq_reference (c : GostCipher64_t) (hT : ∀ e ∈ c.data.permutation, e < 16)
    (p32 : Nat × Nat) (i : Nat) :
    roundBody c.data.permutation (encryptionKey c i) i p32 =
      referenceRound c.data.roundKeys c.data.permutation p32 i := by
  unfold roundBody referenceRound
  have hkey : encryptionKey c i = referenceEncryptionKey c.data.roundKeys i := rfl
  simp only [hkey]
  rw [rotation_eq_reference _ (substitute_lt _ _), substitute_eq_reference _ hT]

theorem getD_replicate_zero (n k : Nat) : (List.replicate n 0).getD k 0 = 0 :=
  Nat.le_zero.mp (Nat.le_of_lt_succ
    (getD_lt_of_forall_mem (List.replicate n 0) k 1 (by norm_num)
      (fun b hb => by rw [List.eq_of_mem_replicate hb]; norm_num)))

theorem substitute_zero_table (t : Nat) : substitute (List.replicate 128 0) t = 0 := by
  rw [substitute_eq_reference _ (fun e he => by rw [List.eq_of_mem_replicate he]; norm_num)]
  unfold referenceSubstitution
  rw [show List.range 8 = [0, 1, 2, 3, 4, 5, 6, 7] from rfl]
  simp only [List.foldl_cons, List.foldl_nil, getD_replicate_zero, Nat.zero_mul, Nat.add_zero]

/-! ## Self-tests -/

set_option maxRecDepth 100000 in
theorem ecbImage_control_open :
    ecbImage (encryptionRounds controlCipherECB) Control_open 4 = ControlECB_close := by
  decide

set_option maxRecDepth 100000 in
theorem ctrImage_control_open :
    ctrImage controlCipherCTR Control_open 32 = ControlCTR_close := by
  decide

theorem control_init_setKey (c0 : GostCipher64_t) :
    GostCipher64_SetKey (GostCipher64_Init (some c0)).2 (some Control_key) =
      (true, some ⟨⟨List.replicate 128 0, controlCipherECB.data.roundKeys, none⟩, ⟨0, 0⟩⟩) :=
  rfl

theorem control_configuration (shlUB : Nat → Nat) (c0 : GostCipher64_t) :
    GostCipher64_SetPermutation shlUB
      (GostCipher64_SetKey (GostCipher64_Init (some c0)).2 (some Control_key)).2
      (some GostCipher64_Permutation) = (true, some controlCipherECB) := by
  rw [control_init_setKey, setPermutation_builtin]
  rfl

theorem controlECB_encryption :
    GostCipher64_EncryptionECB (some controlCipherECB) (some Control_result) (some Control_open) 32 =
      ⟨true, some controlCipherECB, some ControlECB_close⟩ := by
  rw [encryptionECB_eq controlCipherECB Control_result Control_open 32 (by norm_num)
    (by norm_num) (by decide)]
  have h : ecbImage (encryptionRounds controlCipherECB) Control_open (32 / 8) =
      ControlECB_close := ecbImage_control_open
  rw [h]

theorem controlECB_decryption (d : List Nat) (hd : d.length = 32) :
    GostCipher64_DecryptionECB (some controlCipherECB) (some d) (some ControlECB_close) 32 =
      ⟨true, some controlCipherECB, some Control_open⟩ := by
  rw [decryptionECB_eq controlCipherECB d ControlECB_close 32 (by norm_num) (by norm_num) hd]
  have h : ecbImage (decryptionRounds controlCipherECB) ControlECB_close (32 / 8) =
      Control_open := by
    have h1 := ecbImage_decryption_encryption controlCipherECB Control_open 4 (by decide)
      (by decide)
    rw [ecbImage_control_open] at h1
    exact h1
  rw [h]

theorem controlCTR_configuration (shlUB : Nat → Nat) (c0 : GostCipher64_t) :
    GostCipher64_SetGammaPeriod (GostCipher64_SetIV (GostCipher64_SetPermutation shlUB
      (GostCipher64_SetKey (GostCipher64_Init (some c0)).2 (some Control_key)).2
      (some GostCipher64_Permutation)).2 (some ControlCTR_IV) 4).2 8 =
      (true, some controlCipherCTR) := by
  rw [control_configuration]
  rfl

theorem controlCTR_encryption :
    GostCipher64_EncryptionCTR (some controlCipherCTR) (some Control_result) (some Control_open) 32 =
      ⟨true, some controlCipherCTR, some ControlCTR_close⟩ := by
  rw [encryptionCTR_eq controlCipherCTR Control_result Control_open 32 (by norm_num) rfl
    (by decide), ctrImage_control_open]

/-- `GostCipher64_ControlCTR` returns `false` as well, at its first comparison. -/
theorem controlCTR_returns_false (shlUB : Nat → Nat) (cipher : GostCipher64_t) :
    GostCipher64_ControlCTR shlUB cipher = false := by
  unfold GostCipher64_ControlCTR
  have hinit : (GostCipher64_Init (some cipher)).1 = true := rfl
  have hkey : (GostCipher64_SetKey (GostCipher64_Init (some cipher)).2 (some Control_key)).1 =
      true := rfl
  have hiv : (GostCipher64_SetIV (some controlCipherECB) (some ControlCTR_IV) 4).1 = true := rfl
  have hcmp : memcmp ControlCTR_close ControlCTR_close 32 = 0 := by decide
  have hg : GostCipher64_SetGammaPeriod
      (GostCipher64_SetIV (some controlCipherECB) (some ControlCTR_IV) 4).2 8 =
      (true, some controlCipherCTR) := rfl
  simp only [control_configuration, hg, controlCTR_encryption]
  simp [hinit, hkey, hiv, hcmp]

/-- With both self-tests returning `false`, `main` prints nothing. -/
theorem main_prints_nothing (shlUB : Nat → Nat) (cipher : GostCipher64_t) :
    main shlUB cipher = [] := by
  have h1 : GostCipher64_ControlECB shlUB cipher = false := by
    unfold GostCipher64_ControlECB
    have hinit : (GostCipher64_Init (some cipher)).1 = true := rfl
    have hkey : (GostCipher64_SetKey (GostCipher64_Init (some cipher)).2 (some Control_key)).1 =
        true := rfl
    have hcmp : memcmp ControlECB_close ControlECB_close 32 = 0 := by decide
    simp only [control_configuration, controlECB_encryption]
    simp [hinit, hkey, hcmp]
  simp [main, h1, controlCTR_returns_false]

/-! ## Every array access of the block transforms is in bounds -/

theorem foldlM_eq_some_foldl {α β : Type} (f : β → α → β) (g : β → α → Option β)
    (Inv : β → Prop) (l : List α) (s : β) (hs : Inv s)
    (h : ∀ s a, Inv s → a ∈ l → g s a = some (f s a) ∧ Inv (f s a)) :
    l.foldlM g s = some (l.foldl f s) ∧ Inv (l.foldl f s) := by
  induction l generalizing s with
  | nil => exact ⟨rfl, hs⟩
  | cons a l ih =>
    obtain ⟨h1, h2⟩ := h s a hs (by simp)
    rw [List.foldlM_cons, h1, List.foldl_cons]
    exact ih (f s a) h2 (fun s b hs hb => h s b hs (by simp [hb]))

theorem getElem?_eq_some_getD (l : List Nat) (k : Nat) (hk : k < l.length) :
    l[k]? = some (l.getD k 0) := by
  rw [List.getD_eq_getElem _ _ hk, List.getElem?_eq_getElem hk]

theorem table_index_lt (j b : Nat) (hj : j < 4) :
    16 * (2 * j) + (b &&& 0x0f) < 128 ∧ 16 * (2 * j + 1) + ((b &&& 0xf0) >>> 4) < 128 := by
  have h1 : b &&& 0x0f ≤ 0x0f := Nat.and_le_right
  have h2 : b &&& 0xf0 ≤ 0xf0 := Nat.and_le_right
  have h3 : (b &&& 0xf0) >>> 4 = (b &&& 0xf0) / 2 ^ 4 := Nat.shiftRight_eq_div_pow _ _
  rw [h3]
  constructor <;> omega

theorem substituteByteChecked_eq (T p8 : List Nat) (j : Nat) (hT : T.length = 128)
    (hp : p8.length = 4) (hj : j < 4) :
    substituteByteChecked T p8 j = some (substituteByte T p8 j) := by
  rw [substituteByte_eq T p8 j (by omega)]
  unfold substituteByteChecked byteImage
  have hb := getElem?_eq_some_getD p8 j (by omega)
  have h0 := getElem?_eq_some_getD T (16 * (2 * j) + (p8.getD j 0 &&& 0x0f))
    (by have := (table_index_lt j (p8.getD j 0) hj).1; omega)
  have h1 := getElem?_eq_some_getD T (16 * (2 * j + 1) +
      (((((p8.getD j 0 &&& 0xf0) ^^^
        T.getD (16 * (2 * j) + (p8.getD j 0 &&& 0x0f)) 0) % 256) &&& 0xf0) >>> 4))
    (by have := (table_index_lt j (((p8.getD j 0 &&& 0xf0) ^^^
          T.getD (16 * (2 * j) + (p8.getD j 0 &&& 0x0f)) 0) % 256) hj).2; omega)
  simp only [hb, h0, h1, Option.bind_eq_bind, Option.some_bind, Option.pure_def]

theorem substituteChecked_eq (T : List Nat) (t32 : Nat) (hT : T.length = 128) :
    substituteChecked T t32 = some (substitute T t32) := by
  unfold substituteChecked substitute
  have h := foldlM_eq_some_foldl (substituteByte T) (substituteByteChecked T)
    (fun p8 => p8.length = 4) (List.range 4) (toBytesLE 4 t32) (length_toBytesLE 4 t32)
    (fun p8 j hp hj => ⟨substituteByteChecked_eq T p8 j hT hp (List.mem_range.mp hj), by
      show (substituteByte T p8 j).length = 4
      rw [substituteByte_eq T p8 j (by rw [hp]; exact List.mem_range.mp hj), List.length_set]
      exact hp⟩)
  rw [h.1]
  rfl

theorem roundBodyChecked_eq (c : GostCipher64_t) (k i : Nat) (p32 : Nat × Nat)
    (hT : c.data.permutation.length = 128) (hK : c.data.roundKeys.length = 8) (hk : k < 8) :
    roundBodyChecked c k i p32 =
      some (roundBody c.data.permutation (c.data.roundKeys.getD k 0) i p32) := by
  unfold roundBodyChecked roundBody
  simp only [getElem?_eq_some_getD c.data.roundKeys k (by omega), substituteChecked_eq _ _ hT,
    Option.bind_eq_bind, Option.some_bind, Option.pure_def]

theorem keyIndex_lt (i : Nat) : encryptionKeyIndex i < 8 ∧ decryptionKeyIndex i < 8 := by
  unfold encryptionKeyIndex decryptionKeyIndex
  constructor <;> split <;> omega

theorem encryptionKey_eq_index (c : GostCipher64_t) (i : Nat) :
    encryptionKey c i = c.data.roundKeys.getD (encryptionKeyIndex i) 0 := by
  unfold encryptionKey encryptionKeyIndex
  split <;> rfl

theorem decryptionKey_eq_index (c : GostCipher64_t) (i : Nat) :
    decryptionKey c i = c.data.roundKeys.getD (decryptionKeyIndex i) 0 := by
  unfold decryptionKey decryptionKeyIndex
  split <;> rfl

theorem foldl_counted {α β : Type} (F : β → α → β) (l : List α) (p : β) (n : Nat) :
    l.foldl (fun (st : β × Nat) i => (F st.1 i, st.2 + 1)) (p, n) =
      (l.foldl F p, n + l.length) := by
  induction l generalizing p n with
  | nil => rfl
  | cons a l ih =>
    rw [List.foldl_cons, ih, List.foldl_cons, List.length_cons]
    congr 1
    omega

theorem encryptionRoundsChecked_eq (c : GostCipher64_t) (s : Nat)
    (hT : c.data.permutation.length = 128) (hK : c.data.roundKeys.length = 8) :
    encryptionRoundsChecked c s = some (encryptionRounds c s, 32) := by
  unfold encryptionRoundsChecked encryptionRounds
  have h := foldlM_eq_some_foldl
    (fun (st : (Nat × Nat) × Nat) i =>
      (roundBody c.data.permutation (encryptionKey c i) i st.1, st.2 + 1))
    (fun st i => (roundBodyChecked c (encryptionKeyIndex i) i st.1).map (fun p => (p, st.2 + 1)))
    (fun _ => True) (List.range 32) (split64 s, 0) trivial
    (fun st i _ _ => ⟨by
      show (roundBodyChecked c (encryptionKeyIndex i) i st.1).map (fun p => (p, st.2 + 1)) =
        some (roundBody c.data.permutation (encryptionKey c i) i st.1, st.2 + 1)
      rw [roundBodyChecked_eq c _ i st.1 hT hK (keyIndex_lt i).1, encryptionKey_eq_index]
      rfl, trivial⟩)
  rw [h.1, foldl_counted (fun p32 i => roundBody c.data.permutation (encryptionKey c i) i p32)
    (List.range 32) (split64 s) 0]
  rfl

theorem decryptionRoundsChecked_eq (c : GostCipher64_t) (s : Nat)
    (hT : c.data.permutation.length = 128) (hK : c.data.roundKeys.length = 8) :
    decryptionRoundsChecked c s = some (decryptionRounds c s, 32) := by
  unfold decryptionRoundsChecked decryptionRounds
  have h := foldlM_eq_some_foldl
    (fun (st : (Nat × Nat) × Nat) i =>
      (roundBody c.data.permutation (decryptionKey c i) i st.1, st.2 + 1))
    (fun st i => (roundBodyChecked c (decryptionKeyIndex i) i st.1).map (fun p => (p, st.2 + 1)))
    (fun _ => True) (List.range 32) (split64 s, 0) trivial
    (fun st i _ _ => ⟨by
      show (roundBodyChecked c (decryptionKeyIndex i) i st.1).map (fun p => (p, st.2 + 1)) =
        some (roundBody c.data.permutation (decryptionKey c i) i st.1, st.2 + 1)
      rw [roundBodyChecked_eq c _ i st.1 hT hK (keyIndex_lt i).2, decryptionKey_eq_index]
      rfl, trivial⟩)
  rw [h.1, foldl_counted (fun p32 i => roundBody c.data.permutation (decryptionKey c i) i p32)
    (List.range 32) (split64 s) 0]
  rfl

/-! ## Specification properties -/

/-- C1. ECB round trip: for every context (any round keys and any table, in
particular every table accepted by `GostCipher64_SetPermutation`) and every
byte buffer `x` whose length is a positive multiple of 8,
`GostCipher64_EncryptionECB` succeeds with an output `y` of the same length and
`GostCipher64_DecryptionECB` of `y` succeeds and returns `x`. -/
theorem C1_ecb_round_trip (c : GostCipher64_t) (x d1 d2 : List Nat)
    (hpos : 0 < x.length) (h8 : x.length % 8 = 0) (hx : ∀ b ∈ x, b < 256)
    (hd1 : d1.length = x.length) (hd2 : d2.length = x.length) :
    ∃ y, GostCipher64_EncryptionECB (some c) (some d1) (some x) x.length = ⟨true, some c, some y⟩ ∧
      y.length = x.length ∧
      GostCipher64_DecryptionECB (some c) (some d2) (some y) x.length = ⟨true, some c, some x⟩ := by
  refine ⟨ecbImage (encryptionRounds c) x (x.length / 8),
    encryptionECB_eq c d1 x x.length hpos h8 hd1, ?_, ?_⟩
  · rw [length_ecbImage]; omega
  · rw [decryptionECB_eq c d2 _ x.length hpos h8 hd2,
      ecbImage_decryption_encryption c x (x.length / 8) hx (by omega)]

/-- Witness of C1 on the reference plaintext of the self-test. -/
theorem C1_ecb_round_trip_witness :
    0 < Control_open.length ∧ Control_open.length % 8 = 0 ∧ (∀ b ∈ Control_open, b < 256) ∧
    Control_result.length = Control_open.length ∧
    ∃ y, GostCipher64_EncryptionECB (some controlCipherECB) (some Control_result)
        (some Control_open) Control_open.length = ⟨true, some controlCipherECB, some y⟩ ∧
      y.length = Control_open.length ∧
      GostCipher64_DecryptionECB (some controlCipherECB) (some Control_result) (some y)
        Control_open.length = ⟨true, some controlCipherECB, some Control_open⟩ :=
  ⟨by decide, by decide, by decide, by decide,
    C1_ecb_round_trip controlCipherECB Control_open Control_result Control_result
      (by decide) (by decide) (by decide) (by decide) (by decide)⟩

set_option maxRecDepth 100000 in
/-- C2. ECB known-answer vector: after `GostCipher64_Init`, `GostCipher64_SetKey`
with the reference key and `GostCipher64_SetPermutation` with the built-in
table (all three succeed, whatever the context held before),
`GostCipher64_EncryptionECB` of the 32 reference plaintext bytes succeeds and
writes exactly the 32 reference ciphertext bytes. -/
theorem C2_ecb_known_answer (shlUB : Nat → Nat) (c0 : GostCipher64_t) (d : List Nat)
    (hd : d.length = 32) :
    ∃ c1 c2 c3,
      GostCipher64_Init (some c0) = (true, some c1) ∧
      GostCipher64_SetKey (some c1) (some Control_key) = (true, some c2) ∧
      GostCipher64_SetPermutation shlUB (some c2) (some GostCipher64_Permutation) =
        (true, some c3) ∧
      GostCipher64_EncryptionECB (some c3) (some d) (some Control_open) 32 =
        ⟨true, some c3, some ControlECB_close⟩ := by
  refine ⟨_, _, controlCipherECB, rfl, rfl, setPermutation_builtin shlUB _, ?_⟩
  rw [encryptionECB_eq controlCipherECB d Control_open 32 (by norm_num) (by norm_num) hd]
  have h : ecbImage (encryptionRounds controlCipherECB) Control_open (32 / 8) =
      ControlECB_close := by decide
  rw [h]

/-- Witness of C2 with the zeroed `result` buffer of the self-test. -/
theorem C2_ecb_known_answer_witness :
    Control_result.length = 32 ∧
    ∃ c1 c2 c3,
      GostCipher64_Init (some staleCipher) = (true, some c1) ∧
      GostCipher64_SetKey (some c1) (some Control_key) = (true, some c2) ∧
      GostCipher64_SetPermutation shlShiftOut (some c2) (some GostCipher64_Permutation) =
        (true, some c3) ∧
      GostCipher64_EncryptionECB (some c3) (some Control_result) (some Control_open) 32 =
        ⟨true, some c3, some ControlECB_close⟩ :=
  ⟨by decide, C2_ecb_known_answer shlShiftOut staleCipher Control_result (by decide)⟩

set_option maxRecDepth 100000 in
/-- C3. CTR known-answer vector: with the reference key and the built-in table,
`GostCipher64_SetIV` with the 4 bytes `78 56 34 12` and
`GostCipher64_SetGammaPeriod` with 8 (all five configuration calls succeed),
`GostCipher64_EncryptionCTR` of the 32 reference plaintext bytes succeeds and
writes exactly the 32 reference CTR ciphertext bytes. -/
theorem C3_ctr_known_answer (shlUB : Nat → Nat) (c0 : GostCipher64_t) (d : List Nat)
    (hd : d.length = 32) :
    ∃ c1 c2 c3 c4 c5,
      GostCipher64_Init (some c0) = (true, some c1) ∧
      GostCipher64_SetKey (some c1) (some Control_key) = (true, some c2) ∧
      GostCipher64_SetPermutation shlUB (some c2) (some GostCipher64_Permutation) =
        (true, some c3) ∧
      GostCipher64_SetIV (some c3) (some ControlCTR_IV) 4 = (true, some c4) ∧
      GostCipher64_SetGammaPeriod (some c4) 8 = (true, some c5) ∧
      GostCipher64_EncryptionCTR (some c5) (some d) (some Control_open) 32 =
        ⟨true, some c5, some ControlCTR_close⟩ := by
  refine ⟨_, _, controlCipherECB, _, controlCipherCTR, rfl, rfl,
    setPermutation_builtin shlUB _, rfl, rfl, ?_⟩
  rw [encryptionCTR_eq controlCipherCTR d Control_open 32 (by norm_num) rfl hd]
  have h : ctrImage controlCipherCTR Control_open 32 = ControlCTR_close := by decide
  rw [h]

/-- Witness of C3 with the zeroed `result` buffer of the self-test. -/
theorem C3_ctr_known_answer_witness :
    Control_result.length = 32 ∧
    ∃ c1 c2 c3 c4 c5,
      GostCipher64_Init (some staleCipher) = (true, some c1) ∧
      GostCipher64_SetKey (some c1) (some Control_key) = (true, some c2) ∧
      GostCipher64_SetPermutation shlShiftOut (some c2) (some GostCipher64_Permutation) =
        (true, some c3) ∧
      GostCipher64_SetIV (some c3) (some ControlCTR_IV) 4 = (true, some c4) ∧
      GostCipher64_SetGammaPeriod (some c4) 8 = (true, some c5) ∧
      GostCipher64_EncryptionCTR (some c5) (some Control_result) (some Control_open) 32 =
        ⟨true, some c5, some ControlCTR_close⟩ :=
  ⟨by decide, C3_ctr_known_answer shlShiftOut staleCipher Control_result (by decide)⟩

/-- C4. CTR is its own inverse: `GostCipher64_DecryptionCTR` is the function
`GostCipher64_EncryptionCTR`, and for every context whose stored IV length is 4
and every non-empty buffer `x`, `GostCipher64_EncryptionCTR` succeeds, leaves
the context as it was, and applying `GostCipher64_DecryptionCTR` or
`GostCipher64_EncryptionCTR` to its output gives back `x`. -/
theorem C4_ctr_self_inverse (c : GostCipher64_t) (x d1 d2 : List Nat)
    (hiv : c.settings.IVLength = 4) (hpos : 0 < x.length)
    (hd1 : d1.length = x.length) (hd2 : d2.length = x.length) :
    GostCipher64_DecryptionCTR = GostCipher64_EncryptionCTR ∧
    ∃ y, GostCipher64_EncryptionCTR (some c) (some d1) (some x) x.length = ⟨true, some c, some y⟩ ∧
      y.length = x.length ∧
      GostCipher64_DecryptionCTR (some c) (some d2) (some y) x.length = ⟨true, some c, some x⟩ ∧
      GostCipher64_EncryptionCTR (some c) (some d2) (some y) x.length = ⟨true, some c, some x⟩ := by
  have h2 : GostCipher64_EncryptionCTR (some c) (some d2) (some (ctrImage c x x.length)) x.length =
      ⟨true, some c, some x⟩ := by
    rw [encryptionCTR_eq c d2 _ x.length hpos hiv hd2, ctrImage_ctrImage c x x.length rfl]
  exact ⟨rfl, ctrImage c x x.length, encryptionCTR_eq c d1 x x.length hpos hiv hd1,
    length_ctrImage c x x.length, h2, h2⟩

/-- Witness of C4 on the context and plaintext of the CTR self-test. -/
theorem C4_ctr_self_inverse_witness :
    controlCipherCTR.settings.IVLength = 4 ∧ 0 < Control_open.length ∧
    Control_result.length = Control_open.length ∧
    GostCipher64_DecryptionCTR = GostCipher64_EncryptionCTR ∧
    ∃ y, GostCipher64_EncryptionCTR (some controlCipherCTR) (some Control_result)
        (some Control_open) Control_open.length = ⟨true, some controlCipherCTR, some y⟩ ∧
      y.length = Control_open.length ∧
      GostCipher64_DecryptionCTR (some controlCipherCTR) (some Control_result) (some y)
        Control_open.length = ⟨true, some controlCipherCTR, some Control_open⟩ ∧
      GostCipher64_EncryptionCTR (some controlCipherCTR) (some Control_result) (some y)
        Control_open.length = ⟨true, some controlCipherCTR, some Control_open⟩ :=
  ⟨by decide, by decide, by decide,
    C4_ctr_self_inverse controlCipherCTR Control_open Control_result Control_result
      (by decide) (by decide) (by decide) (by decide)⟩

set_option maxRecDepth 100000 in
/-- C5. Table validation is not exact for every byte value. The table
`aliasedTable` is the built-in table with entry 0 changed from `0xc` to `0x2c`:
128 byte values, group 0 without any `0xc`. The validation loop evaluates
`1 << 0x2c`, a shift count for which C defines no result. On a machine whose
shift takes the count modulo 32 the flag word of group 0 still reaches `0xffff`
and `GostCipher64_SetPermutation` returns `true` and installs the table; on a
machine that shifts the bit out the same call returns `false`. -/
theorem C5_setPermutation_aliased_entry :
    aliasedTable.length = 128 ∧ (∀ b ∈ aliasedTable, b < 256) ∧
    ((aliasedTable.drop (16 * 0)).take 16).count 0xc = 0 ∧
    GostCipher64_SetPermutation shlCountMod32 (some staleCipher) (some aliasedTable) =
      (true, some { staleCipher with
        data := { staleCipher.data with permutation := aliasedTable } }) ∧
    GostCipher64_SetPermutation shlShiftOut (some staleCipher) (some aliasedTable) =
      (false, some staleCipher) := by
  decide

/-- C6. The block transforms are mutually inverse: for every context (any
round keys, any table, so in particular every validated table) and every
64-bit block `b`, both block functions succeed with a 64-bit result,
`GostCipher64_DecryptionBlock` undoes `GostCipher64_EncryptionBlock` and vice
versa, and block encryption is a bijection of the 64-bit values. -/
theorem C6_block_inverse (c : GostCipher64_t) (b d : Nat) (hb : b < 2 ^ 64) :
    (∃ e, GostCipher64_EncryptionBlock (some c) (some d) (some b) = (true, some e) ∧
      e < 2 ^ 64 ∧ GostCipher64_DecryptionBlock (some c) (some d) (some e) = (true, some b)) ∧
    (∃ e, GostCipher64_DecryptionBlock (some c) (some d) (some b) = (true, some e) ∧
      e < 2 ^ 64 ∧ GostCipher64_EncryptionBlock (some c) (some d) (some e) = (true, some b)) ∧
    Set.BijOn (fun v => (GostCipher64_EncryptionBlock (some c) (some d) (some v)).2.getD 0)
      (Set.Iio (2 ^ 64)) (Set.Iio (2 ^ 64)) := by
  refine ⟨⟨encryptionRounds c b, rfl, encryptionRounds_lt c b, ?_⟩,
    ⟨decryptionRounds c b, rfl, decryptionRounds_lt c b, ?_⟩, ?_, ?_, ?_⟩
  · simp only [GostCipher64_DecryptionBlock, decryptionRounds_encryptionRounds c b hb]
  · simp only [GostCipher64_EncryptionBlock, encryptionRounds_decryptionRounds c b hb]
  · intro v _
    exact encryptionRounds_lt c v
  · intro v hv w hw hvw
    simp only [GostCipher64_EncryptionBlock, Option.getD_some] at hvw
    rw [← decryptionRounds_encryptionRounds c v hv, hvw,
      decryptionRounds_encryptionRounds c w hw]
  · intro w hw
    exact ⟨decryptionRounds c w, decryptionRounds_lt c w, by
      simp only [GostCipher64_EncryptionBlock, Option.getD_some,
        encryptionRounds_decryptionRounds c w hw]⟩

/-- Witness of C6 on the first block of the reference plaintext. -/
theorem C6_block_inverse_witness :
    0x92def06b3c130a59 < 2 ^ 64 ∧
    (∃ e, GostCipher64_EncryptionBlock (some controlCipherECB) (some 0)
        (some 0x92def06b3c130a59) = (true, some e) ∧ e < 2 ^ 64 ∧
      GostCipher64_DecryptionBlock (some controlCipherECB) (some 0) (some e) =
        (true, some 0x92def06b3c130a59)) ∧
    (∃ e, GostCipher64_DecryptionBlock (some controlCipherECB) (some 0)
        (some 0x92def06b3c130a59) = (true, some e) ∧ e < 2 ^ 64 ∧
      GostCipher64_EncryptionBlock (some controlCipherECB) (some 0) (some e) =
        (true, some 0x92def06b3c130a59)) ∧
    Set.BijOn (fun v => (GostCipher64_EncryptionBlock (some controlCipherECB) (some 0)
        (some v)).2.getD 0) (Set.Iio (2 ^ 64)) (Set.Iio (2 ^ 64)) :=
  ⟨by decide, C6_block_inverse controlCipherECB 0x92def06b3c130a59 0 (by decide)⟩

/-- C7. ECB length contract: with non-null arguments,
`GostCipher64_EncryptionECB` and `GostCipher64_DecryptionECB` return `true`
exactly when `length` is positive and a multiple of 8; when `length` is 0 or
not divisible by 8 they return `false` and the destination buffer (and the
context) is exactly as it was. -/
theorem C7_ecb_length_contract (c : GostCipher64_t) (d s : List Nat) (length : Nat) :
    ((GostCipher64_EncryptionECB (some c) (some d) (some s) length).result = true ↔
      (0 < length ∧ length % 8 = 0)) ∧
    ((GostCipher64_DecryptionECB (some c) (some d) (some s) length).result = true ↔
      (0 < length ∧ length % 8 = 0)) ∧
    ((length = 0 ∨ length % 8 ≠ 0) →
      GostCipher64_EncryptionECB (some c) (some d) (some s) length = ⟨false, some c, some d⟩ ∧
      GostCipher64_DecryptionECB (some c) (some d) (some s) length = ⟨false, some c, some d⟩) := by
  by_cases h : length = 0 ∨ length % 8 ≠ 0
  · have hn : ¬ (0 < length ∧ length % 8 = 0) := by omega
    simp [GostCipher64_EncryptionECB, GostCipher64_DecryptionECB, h, hn]
  · have hp : 0 < length := by omega
    have h8 : length % 8 = 0 := by omega
    have hne : length ≠ 0 := by omega
    simp [GostCipher64_EncryptionECB, GostCipher64_DecryptionECB, encryptionECB_loop,
      decryptionECB_loop, hp, h8, hne]

/-- Witness of C7 at the lengths 0, 7, 9 and 32 of the reference buffers. -/
theorem C7_ecb_length_contract_witness :
    GostCipher64_EncryptionECB (some controlCipherECB) (some Control_result) (some Control_open) 0 =
      ⟨false, some controlCipherECB, some Control_result⟩ ∧
    GostCipher64_EncryptionECB (some controlCipherECB) (some Control_result) (some Control_open) 7 =
      ⟨false, some controlCipherECB, some Control_result⟩ ∧
    GostCipher64_DecryptionECB (some controlCipherECB) (some Control_result) (some Control_open) 9 =
      ⟨false, some controlCipherECB, some Control_result⟩ ∧
    (GostCipher64_DecryptionECB (some controlCipherECB) (some Control_result)
      (some Control_open) 32).result = true :=
  ⟨((C7_ecb_length_contract controlCipherECB Control_result Control_open 0).2.2
      (by decide)).1,
    ((C7_ecb_length_contract controlCipherECB Control_result Control_open 7).2.2
      (by decide)).1,
    ((C7_ecb_length_contract controlCipherECB Control_result Control_open 9).2.2
      (by decide)).2,
    (C7_ecb_length_contract controlCipherECB Control_result Control_open 32).2.1.2
      (by decide)⟩

/-- C8. CTR precondition contract: with non-null arguments,
`GostCipher64_EncryptionCTR` and `GostCipher64_DecryptionCTR` return `true`
exactly when `length > 0` and the stored IV length is 4; with `length = 0` or
any other IV length (the 0 left by `GostCipher64_Init` included) they return
`false` and the destination buffer (and the context) is exactly as it was. -/
theorem C8_ctr_precondition_contract (c : GostCipher64_t) (d s : List Nat) (length : Nat) :
    ((GostCipher64_EncryptionCTR (some c) (some d) (some s) length).result = true ↔
      (0 < length ∧ c.settings.IVLength = 4)) ∧
    ((GostCipher64_DecryptionCTR (some c) (some d) (some s) length).result = true ↔
      (0 < length ∧ c.settings.IVLength = 4)) ∧
    ((length = 0 ∨ c.settings.IVLength ≠ 4) →
      GostCipher64_EncryptionCTR (some c) (some d) (some s) length = ⟨false, some c, some d⟩ ∧
      GostCipher64_DecryptionCTR (some c) (some d) (some s) length = ⟨false, some c, some d⟩) := by
  by_cases h0 : length = 0
  · simp [GostCipher64_DecryptionCTR, GostCipher64_EncryptionCTR, h0]
  · by_cases h4 : c.settings.IVLength = 4
    · have hp : 0 < length := by omega
      simp [GostCipher64_DecryptionCTR, GostCipher64_EncryptionCTR, h0, h4, hp]
    · simp [GostCipher64_DecryptionCTR, GostCipher64_EncryptionCTR, h0, h4]

/-- Witness of C8: length 0 with a 4-byte IV, the context left by
`GostCipher64_Init` (IV length 0), an IV of length 2, and a valid call. -/
theorem C8_ctr_precondition_contract_witness :
    GostCipher64_EncryptionCTR (some controlCipherCTR) (some Control_result) (some Control_open) 0 =
      ⟨false, some controlCipherCTR, some Control_result⟩ ∧
    GostCipher64_EncryptionCTR (GostCipher64_Init (some staleCipher)).2 (some Control_result)
      (some Control_open) 32 =
      ⟨false, (GostCipher64_Init (some staleCipher)).2, some Control_result⟩ ∧
    GostCipher64_DecryptionCTR (some staleCipher) (some Control_result) (some Control_open) 32 =
      ⟨false, some staleCipher, some Control_result⟩ ∧
    (GostCipher64_EncryptionCTR (some controlCipherCTR) (some Control_result)
      (some Control_open) 32).result = true :=
  ⟨((C8_ctr_precondition_contract controlCipherCTR Control_result Control_open 0).2.2
      (by decide)).1,
    ((C8_ctr_precondition_contract _ Control_result Control_open 32).2.2 (by decide)).1,
    ((C8_ctr_precondition_contract staleCipher Control_result Control_open 32).2.2
      (by decide)).2,
    (C8_ctr_precondition_contract controlCipherCTR Control_result Control_open 32).1.2
      (by decide)⟩

/-- C9. `GostCipher64_SetPermutation` is atomic: when it returns `false` the
whole context is as it was; when it returns `true` the table of the context is
the supplied 128 entries and the round keys, the IV, the IV length and the
gamma period are as they were. -/
theorem C9_setPermutation_atomic (shlUB : Nat → Nat) (c : GostCipher64_t) (table : List Nat)
    (ht : table.length = 128) :
    ((GostCipher64_SetPermutation shlUB (some c) (some table)).1 = false →
      (GostCipher64_SetPermutation shlUB (some c) (some table)).2 = some c) ∧
    ((GostCipher64_SetPermutation shlUB (some c) (some table)).1 = true →
      ∃ c1, (GostCipher64_SetPermutation shlUB (some c) (some table)).2 = some c1 ∧
        c1.data.permutation = table ∧ c1.data.roundKeys = c.data.roundKeys ∧
        c1.data.IV = c.data.IV ∧ c1.settings.IVLength = c.settings.IVLength ∧
        c1.settings.gammaPeriod = c.settings.gammaPeriod) := by
  have htake : table.take 128 = table := List.take_of_length_le (by omega)
  by_cases h : (List.range 8).all (fun i => permutationFlags shlUB table i == 0xffff) = true
  · simp [GostCipher64_SetPermutation, h, htake]
  · simp [GostCipher64_SetPermutation, h]

set_option maxRecDepth 100000 in
/-- Witness of C9: the all-zero table is rejected and the built-in table is
accepted, on a context with earlier contents. -/
theorem C9_setPermutation_atomic_witness :
    (List.replicate 128 0).length = 128 ∧ GostCipher64_Permutation.length = 128 ∧
    (GostCipher64_SetPermutation shlShiftOut (some staleCipher)
      (some (List.replicate 128 0))).2 = some staleCipher ∧
    ∃ c1, (GostCipher64_SetPermutation shlShiftOut (some staleCipher)
        (some GostCipher64_Permutation)).2 = some c1 ∧
      c1.data.permutation = GostCipher64_Permutation ∧
      c1.data.roundKeys = staleCipher.data.roundKeys ∧
      c1.data.IV = staleCipher.data.IV ∧
      c1.settings.IVLength = staleCipher.settings.IVLength ∧
      c1.settings.gammaPeriod = staleCipher.settings.gammaPeriod :=
  ⟨by decide, by decide,
    (C9_setPermutation_atomic shlShiftOut staleCipher (List.replicate 128 0) (by decide)).1
      (by decide),
    (C9_setPermutation_atomic shlShiftOut staleCipher GostCipher64_Permutation (by decide)).2
      (by decide)⟩

/-- C10. Key schedule: for every key buffer, so for every 32-byte key,
`GostCipher64_SetKey` succeeds and stores 8 round keys, `roundKeys[i]` being word `7 - i` of the key, where word
`w` is the little-endian value of the key bytes `4w .. 4w+3`; the table, the
IV, the IV length and the gamma period are as they were. -/
theorem C10_key_schedule (c : GostCipher64_t) (key : List Nat) :
    ∃ c1, GostCipher64_SetKey (some c) (some key) = (true, some c1) ∧
      c1.data.roundKeys.length = 8 ∧
      (∀ i, i < 8 → c1.data.roundKeys.getD i 0 =
        key.getD (4 * (7 - i)) 0 + 256 * key.getD (4 * (7 - i) + 1) 0 +
        65536 * key.getD (4 * (7 - i) + 2) 0 + 16777216 * key.getD (4 * (7 - i) + 3) 0) ∧
      c1.data.permutation = c.data.permutation ∧ c1.data.IV = c.data.IV ∧
      c1.settings.IVLength = c.settings.IVLength ∧
      c1.settings.gammaPeriod = c.settings.gammaPeriod := by
  refine ⟨_, rfl, by simp, ?_, rfl, rfl, rfl, rfl⟩
  intro i hi
  have hget : ((List.range 8).map (fun i => keyWord key (8 - i - 1))).getD i 0 =
      keyWord key (8 - i - 1) := by
    simp [List.getD_eq_getElem?_getD, List.getElem?_map, List.getElem?_range, hi]
  show ((List.range 8).map (fun i => keyWord key (8 - i - 1))).getD i 0 = _
  rw [hget, keyWord_eq, show 8 - i - 1 = 7 - i by omega]

/-- Witness of C10 on the reference key of the self-tests. -/
theorem C10_key_schedule_witness :
    ∃ c1, GostCipher64_SetKey (some staleCipher) (some Control_key) = (true, some c1) ∧
      c1.data.roundKeys.length = 8 ∧
      (∀ i, i < 8 → c1.data.roundKeys.getD i 0 =
        Control_key.getD (4 * (7 - i)) 0 + 256 * Control_key.getD (4 * (7 - i) + 1) 0 +
        65536 * Control_key.getD (4 * (7 - i) + 2) 0 +
        16777216 * Control_key.getD (4 * (7 - i) + 3) 0) ∧
      c1.data.permutation = staleCipher.data.permutation ∧ c1.data.IV = staleCipher.data.IV ∧
      c1.settings.IVLength = staleCipher.settings.IVLength ∧
      c1.settings.gammaPeriod = staleCipher.settings.gammaPeriod :=
  C10_key_schedule staleCipher Control_key

/-- C11. ECB has no chaining: for every context and every buffer of at least
one 8-byte block, block `k` of the output of `GostCipher64_EncryptionECB` is
the little-endian image of `GostCipher64_EncryptionBlock` applied to block `k`
of the input alone, and likewise for decryption; hence two identical 8-byte
input blocks, at any positions of the same or of two different buffers, give
identical output blocks. -/
theorem C11_ecb_no_chaining (c : GostCipher64_t) (x1 x2 d1 d2 : List Nat) (k1 k2 : Nat)
    (hpos1 : 0 < x1.length) (h81 : x1.length % 8 = 0) (hd1 : d1.length = x1.length)
    (hk1 : 8 * k1 + 8 ≤ x1.length)
    (hpos2 : 0 < x2.length) (h82 : x2.length % 8 = 0) (hd2 : d2.length = x2.length)
    (hk2 : 8 * k2 + 8 ≤ x2.length)
    (hsame : (x1.drop (8 * k1)).take 8 = (x2.drop (8 * k2)).take 8) :
    (∃ y1 y2,
      GostCipher64_EncryptionECB (some c) (some d1) (some x1) x1.length =
        ⟨true, some c, some y1⟩ ∧
      GostCipher64_EncryptionECB (some c) (some d2) (some x2) x2.length =
        ⟨true, some c, some y2⟩ ∧
      (y1.drop (8 * k1)).take 8 = toBytesLE 8 ((GostCipher64_EncryptionBlock (some c)
        (some (load64 x1 k1)) (some (load64 x1 k1))).2.getD 0) ∧
      (y1.drop (8 * k1)).take 8 = (y2.drop (8 * k2)).take 8) ∧
    (∃ z1 z2,
      GostCipher64_DecryptionECB (some c) (some d1) (some x1) x1.length =
        ⟨true, some c, some z1⟩ ∧
      GostCipher64_DecryptionECB (some c) (some d2) (some x2) x2.length =
        ⟨true, some c, some z2⟩ ∧
      (z1.drop (8 * k1)).take 8 = toBytesLE 8 ((GostCipher64_DecryptionBlock (some c)
        (some (load64 x1 k1)) (some (load64 x1 k1))).2.getD 0) ∧
      (z1.drop (8 * k1)).take 8 = (z2.drop (8 * k2)).take 8) := by
  have hl : load64 x1 k1 = load64 x2 k2 := by unfold load64; rw [hsame]
  have hn1 : k1 < x1.length / 8 := by omega
  have hn2 : k2 < x2.length / 8 := by omega
  refine ⟨⟨_, _, encryptionECB_eq c d1 x1 x1.length hpos1 h81 hd1,
    encryptionECB_eq c d2 x2 x2.length hpos2 h82 hd2, ?_, ?_⟩,
    ⟨_, _, decryptionECB_eq c d1 x1 x1.length hpos1 h81 hd1,
    decryptionECB_eq c d2 x2 x2.length hpos2 h82 hd2, ?_, ?_⟩⟩
  · rw [block_ecbImage _ _ _ _ hn1]; rfl
  · rw [block_ecbImage _ _ _ _ hn1, block_ecbImage _ _ _ _ hn2, hl]
  · rw [block_ecbImage _ _ _ _ hn1]; rfl
  · rw [block_ecbImage _ _ _ _ hn1, block_ecbImage _ _ _ _ hn2, hl]

/-- Witness of C11: blocks 0 and 2 of a 24-byte buffer are the same 8 bytes. -/
theorem C11_ecb_no_chaining_witness :
    (∃ y1 y2,
      GostCipher64_EncryptionECB (some controlCipherECB) (some (List.replicate 24 0))
        (some ((Control_open.take 16) ++ (Control_open.take 8)))
        ((Control_open.take 16) ++ (Control_open.take 8)).length =
        ⟨true, some controlCipherECB, some y1⟩ ∧
      GostCipher64_EncryptionECB (some controlCipherECB) (some (List.replicate 24 0))
        (some ((Control_open.take 16) ++ (Control_open.take 8)))
        ((Control_open.take 16) ++ (Control_open.take 8)).length =
        ⟨true, some controlCipherECB, some y2⟩ ∧
      (y1.drop (8 * 0)).take 8 = toBytesLE 8 ((GostCipher64_EncryptionBlock
        (some controlCipherECB)
        (some (load64 ((Control_open.take 16) ++ (Control_open.take 8)) 0))
        (some (load64 ((Control_open.take 16) ++ (Control_open.take 8)) 0))).2.getD 0) ∧
      (y1.drop (8 * 0)).take 8 = (y2.drop (8 * 2)).take 8) :=
  (C11_ecb_no_chaining controlCipherECB ((Control_open.take 16) ++ (Control_open.take 8))
    ((Control_open.take 16) ++ (Control_open.take 8)) (List.replicate 24 0)
    (List.replicate 24 0) 0 2 (by decide) (by decide) (by decide) (by decide) (by decide)
    (by decide) (by decide) (by decide) (by decide)).1

/-- C12. CTR keystream: for every context with IV length 4 and every input of
`n ≥ 1` bytes (`n` need not be a multiple of 8), `GostCipher64_EncryptionCTR`
succeeds with exactly `n` output bytes, and output byte `i` is input byte `i`
XOR byte `i mod 8`, least significant first, of `GostCipher64_EncryptionBlock`
applied to `(c0 + i / 8) mod 2^64`, where `c0` is the counter built from the
stored IV; of the last keystream block only the bytes that remain are used. -/
theorem C12_ctr_keystream (c : GostCipher64_t) (x d : List Nat)
    (hiv : c.settings.IVLength = 4) (hpos : 0 < x.length) (hd : d.length = x.length) :
    ∃ y, GostCipher64_EncryptionCTR (some c) (some d) (some x) x.length =
        ⟨true, some c, some y⟩ ∧
      y.length = x.length ∧
      ∀ i, i < x.length → y.getD i 0 = x.getD i 0 ^^^
        ((GostCipher64_EncryptionBlock (some c) (some 0)
          (some ((initialCounter c + i / 8) % 2 ^ 64))).2.getD 0 / 256 ^ (i % 8) % 256) := by
  refine ⟨ctrImage c x x.length, encryptionCTR_eq c d x x.length hpos hiv hd,
    length_ctrImage c x x.length, ?_⟩
  intro i hi
  rw [getD_ctrImage c x x.length i hi, ctrStream_eq c 0 i]

/-- Witness of C12 on the first 13 bytes of the reference plaintext. -/
theorem C12_ctr_keystream_witness :
    controlCipherCTR.settings.IVLength = 4 ∧ 0 < (Control_open.take 13).length ∧
    (List.replicate 13 0).length = (Control_open.take 13).length ∧
    ∃ y, GostCipher64_EncryptionCTR (some controlCipherCTR) (some (List.replicate 13 0))
        (some (Control_open.take 13)) (Control_open.take 13).length =
        ⟨true, some controlCipherCTR, some y⟩ ∧
      y.length = (Control_open.take 13).length ∧
      ∀ i, i < (Control_open.take 13).length → y.getD i 0 = (Control_open.take 13).getD i 0 ^^^
        ((GostCipher64_EncryptionBlock (some controlCipherCTR) (some 0)
          (some ((initialCounter controlCipherCTR + i / 8) % 2 ^ 64))).2.getD 0 /
            256 ^ (i % 8) % 256) :=
  ⟨by decide, by decide, by decide,
    C12_ctr_keystream controlCipherCTR (Control_open.take 13) (List.replicate 13 0)
      (by decide) (by decide) (by decide)⟩

/-- C14. Gamma period range: with a non-null context,
`GostCipher64_SetGammaPeriod` returns `true` exactly when `1 ≤ period ≤ 8`; it
then stores `period` in `gammaPeriod` and changes no other field; for
`period = 0` or `period > 8` it returns `false` and the context, with the
gamma period configured before, is as it was. -/
theorem C14_gamma_period_range (c : GostCipher64_t) (period : Nat) :
    ((GostCipher64_SetGammaPeriod (some c) period).1 = true ↔ (1 ≤ period ∧ period ≤ 8)) ∧
    ((1 ≤ period ∧ period ≤ 8) →
      GostCipher64_SetGammaPeriod (some c) period =
        (true, some ⟨c.data, ⟨c.settings.IVLength, period⟩⟩)) ∧
    ((period = 0 ∨ 8 < period) →
      GostCipher64_SetGammaPeriod (some c) period = (false, some c)) := by
  by_cases h : period = 0 ∨ period > 8
  · have hn : ¬ (1 ≤ period ∧ period ≤ 8) := by omega
    simp [GostCipher64_SetGammaPeriod, h, hn]
  · have hp : 1 ≤ period ∧ period ≤ 8 := by omega
    have hq : ¬ (period = 0 ∨ 8 < period) := by omega
    simp [GostCipher64_SetGammaPeriod, h, hp, hq]

/-- Witness of C14 at the periods 0, 1, 8 and 9 on a context whose gamma
period is 3. -/
theorem C14_gamma_period_range_witness :
    GostCipher64_SetGammaPeriod (some staleCipher) 0 = (false, some staleCipher) ∧
    GostCipher64_SetGammaPeriod (some staleCipher) 9 = (false, some staleCipher) ∧
    GostCipher64_SetGammaPeriod (some staleCipher) 1 =
      (true, some ⟨staleCipher.data, ⟨staleCipher.settings.IVLength, 1⟩⟩) ∧
    GostCipher64_SetGammaPeriod (some staleCipher) 8 =
      (true, some ⟨staleCipher.data, ⟨staleCipher.settings.IVLength, 8⟩⟩) :=
  ⟨(C14_gamma_period_range staleCipher 0).2.2 (by decide),
    (C14_gamma_period_range staleCipher 9).2.2 (by decide),
    (C14_gamma_period_range staleCipher 1).2.1 (by decide),
    (C14_gamma_period_range staleCipher 8).2.1 (by decide)⟩

/-- C19. The gamma period is informational only: two contexts with the same
table, round keys and stored IV and the same IV length, whatever their gamma
periods (0, never set, included), give the same result flag and the same
destination bytes in `GostCipher64_EncryptionCTR` for every input; and with an
IV length of 4 and a positive length the call succeeds whatever the gamma
period is. -/
theorem C19_gamma_period_unused (c1 c2 : GostCipher64_t) (d s : List Nat) (length : Nat)
    (hdata : c1.data = c2.data) (hiv : c1.settings.IVLength = c2.settings.IVLength) :
    (GostCipher64_EncryptionCTR (some c1) (some d) (some s) length).result =
      (GostCipher64_EncryptionCTR (some c2) (some d) (some s) length).result ∧
    (GostCipher64_EncryptionCTR (some c1) (some d) (some s) length).destination =
      (GostCipher64_EncryptionCTR (some c2) (some d) (some s) length).destination ∧
    ((c1.settings.IVLength = 4 ∧ 0 < length) →
      (GostCipher64_EncryptionCTR (some c1) (some d) (some s) length).result = true ∧
      (GostCipher64_EncryptionCTR (some c2) (some d) (some s) length).result = true) := by
  obtain ⟨data1, ⟨iv1, g1⟩⟩ := c1
  obtain ⟨data2, ⟨iv2, g2⟩⟩ := c2
  simp only at hdata hiv
  subst hdata hiv
  have hbody : ∀ s : List Nat,
      encryptionCTRBody ⟨data1, ⟨iv1, g1⟩⟩ s = encryptionCTRBody ⟨data1, ⟨iv1, g2⟩⟩ s :=
    fun _ => rfl
  have hcounter : initialCounter ⟨data1, ⟨iv1, g1⟩⟩ = initialCounter ⟨data1, ⟨iv1, g2⟩⟩ := rfl
  by_cases h0 : length = 0
  · simp [GostCipher64_EncryptionCTR, h0]
  · by_cases h4 : iv1 = 4
    · have hp : 0 < length := by omega
      subst h4
      simp only [GostCipher64_EncryptionCTR, h0, if_false, ne_eq, not_true_eq_false, hp,
        and_self, imp_self, and_true, true_and]
      rw [hbody s, hcounter]
    · simp [GostCipher64_EncryptionCTR, h0, h4]

/-- Witness of C19: the CTR self-test context against the same context with
gamma period 0. -/
theorem C19_gamma_period_unused_witness :
    controlCipherCTR.data = (GostCipher64_t.mk controlCipherCTR.data ⟨4, 0⟩).data ∧
    (GostCipher64_EncryptionCTR (some controlCipherCTR) (some Control_result)
        (some Control_open) 32).result =
      (GostCipher64_EncryptionCTR (some ⟨controlCipherCTR.data, ⟨4, 0⟩⟩) (some Control_result)
        (some Control_open) 32).result ∧
    (GostCipher64_EncryptionCTR (some controlCipherCTR) (some Control_result)
        (some Control_open) 32).destination =
      (GostCipher64_EncryptionCTR (some ⟨controlCipherCTR.data, ⟨4, 0⟩⟩) (some Control_result)
        (some Control_open) 32).destination ∧
    ((controlCipherCTR.settings.IVLength = 4 ∧ 0 < 32) →
      (GostCipher64_EncryptionCTR (some controlCipherCTR) (some Control_result)
        (some Control_open) 32).result = true ∧
      (GostCipher64_EncryptionCTR (some ⟨controlCipherCTR.data, ⟨4, 0⟩⟩) (some Control_result)
        (some Control_open) 32).result = true) :=
  ⟨rfl, C19_gamma_period_unused controlCipherCTR ⟨controlCipherCTR.data, ⟨4, 0⟩⟩
    Control_result Control_open 32 rfl rfl⟩

/-- C13, as stated, fails. With the IV `78 56 34 12` of the CTR self-test the
counter that `GostCipher64_EncryptionCTR` builds is `0x1234567800000000`: its
high 32 bits are not zero and its low 32 bits are zero, so they are not the IV
in either byte order. -/
theorem C13_initial_counter_counterexample :
    controlCipherCTR.data.IV = some [0x78, 0x56, 0x34, 0x12] ∧
    controlCipherCTR.settings.IVLength = 4 ∧
    initialCounter controlCipherCTR = 0x1234567800000000 ∧
    ¬ ((split64 (initialCounter controlCipherCTR)).2 = 0) ∧
    ¬ ((split64 (initialCounter controlCipherCTR)).1 = 0x12345678) ∧
    ¬ ((split64 (initialCounter controlCipherCTR)).1 = 0x78563412) := by
  decide

/-- C13, amended. For every stored 4-byte IV the counter that
`GostCipher64_EncryptionCTR` encrypts for the first keystream block has its
low 32 bits equal to zero and its high 32 bits equal to the IV (the
little-endian value of its 4 bytes): the IV occupies bytes 4..7 of the counter.
The first 8 output bytes are the input XOR the bytes of the encryption of that
counter. -/
theorem C13_initial_counter (c : GostCipher64_t) (iv x d : List Nat)
    (hIV : c.data.IV = some iv) (hlen : iv.length = 4) (hb : ∀ b ∈ iv, b < 256)
    (hiv : c.settings.IVLength = 4) (hpos : 0 < x.length) (hd : d.length = x.length) :
    split64 (initialCounter c) = (0, ofBytesLE iv) ∧
    toBytesLE 8 (initialCounter c) = [0, 0, 0, 0] ++ iv ∧
    ∃ y, GostCipher64_EncryptionCTR (some c) (some d) (some x) x.length =
        ⟨true, some c, some y⟩ ∧
      ∀ i, i < 8 → i < x.length → y.getD i 0 = x.getD i 0 ^^^
        ((GostCipher64_EncryptionBlock (some c) (some 0)
          (some (initialCounter c))).2.getD 0 / 256 ^ i % 256) := by
  have heq := initialCounter_eq c iv hIV hlen hiv
  have hlt := ofBytesLE_lt iv hb
  rw [hlen] at hlt
  have hbytes := toBytesLE_ofBytesLE iv hb
  rw [hlen] at hbytes
  refine ⟨?_, ?_, ctrImage c x x.length, encryptionCTR_eq c d x x.length hpos hiv hd, ?_⟩
  · rw [heq]
    unfold split64
    ext
    · simp
    · simp only; omega
  · rw [heq]
    conv_rhs => rw [← hbytes]
    simp only [toBytesLE, List.cons_append, List.nil_append, List.cons.injEq]
    refine ⟨by omega, by omega, by omega, by omega, by omega, by omega, by omega, by omega, ?_⟩
    trivial
  · intro i hi8 hi
    have h1 : i / 8 = 0 := Nat.div_eq_of_lt hi8
    have h2 : i % 8 = i := Nat.mod_eq_of_lt hi8
    have h3 : (initialCounter c + 0) % 2 ^ 64 = initialCounter c :=
      Nat.mod_eq_of_lt (initialCounter_lt c iv hIV hlen hiv hb)
    rw [getD_ctrImage c x x.length i hi, ctrStream_eq c 0 i, h1, h2, h3]

/-- Witness of C13 (amended) on the context of the CTR self-test. -/
theorem C13_initial_counter_witness :
    controlCipherCTR.data.IV = some ControlCTR_IV ∧ ControlCTR_IV.length = 4 ∧
    (∀ b ∈ ControlCTR_IV, b < 256) ∧
    split64 (initialCounter controlCipherCTR) = (0, ofBytesLE ControlCTR_IV) ∧
    toBytesLE 8 (initialCounter controlCipherCTR) = [0, 0, 0, 0] ++ ControlCTR_IV :=
  ⟨rfl, by decide, by decide,
    (C13_initial_counter controlCipherCTR ControlCTR_IV Control_open Control_result rfl
      (by decide) (by decide) (by decide) (by decide) (by decide)).1,
    (C13_initial_counter controlCipherCTR ControlCTR_IV Control_open Control_result rfl
      (by decide) (by decide) (by decide) (by decide) (by decide)).2.1⟩

set_option maxRecDepth 100000 in
/-- C16, as stated, fails. On the context of the self-test, round 0 of
`GostCipher64_DecryptionBlock` uses `roundKeys[0]` and not `roundKeys[7]`, and
round 8 uses `roundKeys[7]` and not `roundKeys[0]`; with the key order of the
statement (reverse in rounds 0..7, forward in rounds 8..31) the first block of
the reference ciphertext would not decrypt to the reference plaintext, while
`GostCipher64_DecryptionBlock` does decrypt it. -/
theorem C16_decryption_key_order_counterexample :
    decryptionKey controlCipherECB 0 = controlCipherECB.data.roundKeys.getD 0 0 ∧
    ¬ (decryptionKey controlCipherECB 0 = controlCipherECB.data.roundKeys.getD (7 - 0 % 8) 0) ∧
    decryptionKey controlCipherECB 8 = controlCipherECB.data.roundKeys.getD 7 0 ∧
    ¬ (decryptionKey controlCipherECB 8 = controlCipherECB.data.roundKeys.getD (8 % 8) 0) ∧
    GostCipher64_DecryptionBlock (some controlCipherECB) (some 0) (some 0x2b073f0494f372a0) =
      (true, some 0x92def06b3c130a59) ∧
    ¬ (join64 ((List.range 32).foldl
        (fun p32 i => roundBody controlCipherECB.data.permutation
          (if i < 8 then controlCipherECB.data.roundKeys.getD (7 - i % 8) 0
            else controlCipherECB.data.roundKeys.getD (i % 8) 0) i p32)
        (split64 0x2b073f0494f372a0)) = 0x92def06b3c130a59) := by
  decide

/-- C16, amended. In `GostCipher64_DecryptionBlock` rounds 0..7 use the round
keys in forward order, `roundKeys[i mod 8]`, and rounds 8..31 use the reverse
order, `roundKeys[7 - (i mod 8)]`; round `i` of the decryption uses the key of
round `31 - i` of the encryption. -/
theorem C16_decryption_key_order (c : GostCipher64_t) (d s i : Nat) :
    GostCipher64_DecryptionBlock (some c) (some d) (some s) =
      (true, some (join64 ((List.range 32).foldl
        (fun p32 i => roundBody c.data.permutation (decryptionKey c i) i p32) (split64 s)))) ∧
    (i < 8 → decryptionKey c i = c.data.roundKeys.getD (i % 8) 0) ∧
    ((8 ≤ i ∧ i < 32) → decryptionKey c i = c.data.roundKeys.getD (7 - i % 8) 0) ∧
    (i < 32 → decryptionKey c i = encryptionKey c (31 - i)) := by
  refine ⟨rfl, ?_, ?_, ?_⟩
  · intro h
    simp [decryptionKey, h]
  · intro h
    have h8 : ¬ i < 8 := by omega
    simp [decryptionKey, h8]
  · intro h
    unfold decryptionKey encryptionKey
    by_cases h8 : i < 8
    · have h24 : ¬ (31 - i < 24) := by omega
      have hidx : 7 - (31 - i) % 8 = i % 8 := by omega
      simp [h8, h24, hidx]
    · have h24 : 31 - i < 24 := by omega
      have hidx : (31 - i) % 8 = 7 - i % 8 := by omega
      simp [h8, h24, hidx]

/-- Witness of C16 (amended) at rounds 3 and 20 of the self-test context. -/
theorem C16_decryption_key_order_witness :
    decryptionKey controlCipherECB 3 = controlCipherECB.data.roundKeys.getD (3 % 8) 0 ∧
    decryptionKey controlCipherECB 20 = controlCipherECB.data.roundKeys.getD (7 - 20 % 8) 0 ∧
    decryptionKey controlCipherECB 20 = encryptionKey controlCipherECB (31 - 20) :=
  ⟨(C16_decryption_key_order controlCipherECB 0 0 3).2.1 (by decide),
    (C16_decryption_key_order controlCipherECB 0 0 20).2.2.1 (by decide),
    (C16_decryption_key_order controlCipherECB 0 0 20).2.2.2 (by decide)⟩

/-- C17. `GostCipher64_EncryptionBlock` equals the word-level reference cipher:
for every round-key array, every table whose entries are all below 16 and
every 64-bit block, with `lo` its low and `hi` its high 32 bits, the function
returns the state of the reference encryption after its 32 rounds; the
byte-wise substitution through the byte view computes exactly the reference
substitution `S`, and the shift-and-mask expression computes exactly the left
rotation by 11. -/
theorem C17_encryption_refines_reference (c : GostCipher64_t) (b d : Nat)
    (hT : ∀ e ∈ c.data.permutation, e < 16) (hb : b < 2 ^ 64) :
    GostCipher64_EncryptionBlock (some c) (some d) (some b) =
      (true, some
        ((referenceEncryption c.data.roundKeys c.data.permutation (b % 2 ^ 32) (b / 2 ^ 32)).1 +
          2 ^ 32 *
        (referenceEncryption c.data.roundKeys c.data.permutation (b % 2 ^ 32) (b / 2 ^ 32)).2)) ∧
    (∀ t, substitute c.data.permutation t = referenceSubstitution c.data.permutation t) ∧
    (∀ s, s < 2 ^ 32 →
      ((s <<< 11) % 2 ^ 32) ^^^ ((s >>> 21) &&& 0x7FF) = referenceRotl32 s 11) := by
  refine ⟨?_, substitute_eq_reference _ hT, rotation_eq_reference⟩
  have hsplit : split64 b = (b % 2 ^ 32, b / 2 ^ 32) := by
    unfold split64
    ext
    · rfl
    · simp only; omega
  have hfun : (fun p32 i => roundBody c.data.permutation (encryptionKey c i) i p32) =
      referenceRound c.data.roundKeys c.data.permutation := by
    funext p32 i
    exact roundBody_eq_reference c hT p32 i
  simp only [GostCipher64_EncryptionBlock, encryptionRounds, referenceEncryption, hsplit, hfun,
    join64]

set_option maxRecDepth 100000 in
/-- Witness of C17 on the self-test context and the first reference block. -/
theorem C17_encryption_refines_reference_witness :
    (∀ e ∈ controlCipherECB.data.permutation, e < 16) ∧ 0x92def06b3c130a59 < 2 ^ 64 ∧
    GostCipher64_EncryptionBlock (some controlCipherECB) (some 0) (some 0x92def06b3c130a59) =
      (true, some
        ((referenceEncryption controlCipherECB.data.roundKeys controlCipherECB.data.permutation
            (0x92def06b3c130a59 % 2 ^ 32) (0x92def06b3c130a59 / 2 ^ 32)).1 +
          2 ^ 32 *
        (referenceEncryption controlCipherECB.data.roundKeys controlCipherECB.data.permutation
            (0x92def06b3c130a59 % 2 ^ 32) (0x92def06b3c130a59 / 2 ^ 32)).2)) :=
  ⟨by decide, by decide,
    (C17_encryption_refines_reference controlCipherECB 0x92def06b3c130a59 0
      (by decide) (by decide)).1⟩

/-- C18, as stated, fails: there is no context, whatever its table (validated
or not, the all-zero table of `GostCipher64_Init` included), and no 64-bit
block `b` for which `GostCipher64_DecryptionBlock` applied to the result of
`GostCipher64_EncryptionBlock` differs from `b`. -/
theorem C18_unvalidated_table_counterexample :
    ¬ ∃ (c : GostCipher64_t) (b : Nat), b < 2 ^ 64 ∧
      (GostCipher64_DecryptionBlock (some c) (some 0)
        (GostCipher64_EncryptionBlock (some c) (some 0) (some b)).2).2 ≠ some b := by
  rintro ⟨c, b, hb, hne⟩
  apply hne
  simp only [GostCipher64_EncryptionBlock, GostCipher64_DecryptionBlock,
    decryptionRounds_encryptionRounds c b hb]

/-- C18, amended. Table validation is not what protects invertibility: in the
context left by `GostCipher64_Init` and `GostCipher64_SetKey`, whose all-zero
table is one that `GostCipher64_SetPermutation` rejects and under which the
substitution step maps every word to 0, block decryption still recovers every
64-bit block from its encryption and block encryption recovers every block
from its decryption, for every key. -/
theorem C18_unvalidated_table_invertible (shlUB : Nat → Nat) (c0 : GostCipher64_t)
    (key : List Nat) (b t : Nat) (hb : b < 2 ^ 64) :
    ∃ c1 c2, GostCipher64_Init (some c0) = (true, some c1) ∧
      GostCipher64_SetKey (some c1) (some key) = (true, some c2) ∧
      c2.data.permutation = List.replicate 128 0 ∧
      GostCipher64_SetPermutation shlUB (some c2) (some c2.data.permutation) =
        (false, some c2) ∧
      substitute c2.data.permutation t = 0 ∧
      (∃ e, GostCipher64_EncryptionBlock (some c2) (some 0) (some b) = (true, some e) ∧
        GostCipher64_DecryptionBlock (some c2) (some 0) (some e) = (true, some b)) ∧
      (∃ e, GostCipher64_DecryptionBlock (some c2) (some 0) (some b) = (true, some e) ∧
        GostCipher64_EncryptionBlock (some c2) (some 0) (some e) = (true, some b)) := by
  refine ⟨_, _, rfl, rfl, rfl, ?_, substitute_zero_table t,
    ⟨_, rfl, ?_⟩, ⟨_, rfl, ?_⟩⟩
  · have hlt : ∀ e ∈ List.replicate 128 0, e < 31 :=
      fun e he => by rw [List.eq_of_mem_replicate he]; norm_num
    have hflags : permutationFlags shlUB (List.replicate 128 0) 0 ≠ 0xffff := by
      rw [permutationFlags_congr shlUB shlShiftOut _ 0 hlt]
      decide
    have hall : ¬ ((List.range 8).all
        (fun i => permutationFlags shlUB (List.replicate 128 0) i == 0xffff) = true) := by
      intro h
      have := List.all_eq_true.mp h 0 (by decide)
      exact hflags (by simpa using this)
    simp only [GostCipher64_SetPermutation]
    rw [if_neg hall]
  · simp only [GostCipher64_DecryptionBlock, decryptionRounds_encryptionRounds _ b hb]
  · simp only [GostCipher64_EncryptionBlock, encryptionRounds_decryptionRounds _ b hb]

/-- Witness of C18 (amended) on the reference key and the first reference block. -/
theorem C18_unvalidated_table_invertible_witness :
    0x92def06b3c130a59 < 2 ^ 64 ∧
    ∃ c1 c2, GostCipher64_Init (some staleCipher) = (true, some c1) ∧
      GostCipher64_SetKey (some c1) (some Control_key) = (true, some c2) ∧
      c2.data.permutation = List.replicate 128 0 ∧
      GostCipher64_SetPermutation shlShiftOut (some c2) (some c2.data.permutation) =
        (false, some c2) ∧
      substitute c2.data.permutation 0x12345678 = 0 ∧
      (∃ e, GostCipher64_EncryptionBlock (some c2) (some 0) (some 0x92def06b3c130a59) =
          (true, some e) ∧
        GostCipher64_DecryptionBlock (some c2) (some 0) (some e) =
          (true, some 0x92def06b3c130a59)) ∧
      (∃ e, GostCipher64_DecryptionBlock (some c2) (some 0) (some 0x92def06b3c130a59) =
          (true, some e) ∧
        GostCipher64_EncryptionBlock (some c2) (some 0) (some e) =
          (true, some 0x92def06b3c130a59)) :=
  ⟨by decide, C18_unvalidated_table_invertible shlShiftOut staleCipher Control_key
    0x92def06b3c130a59 0x12345678 (by decide)⟩

/-- C15. `GostCipher64_ControlECB` returns `false` although the check
succeeded: the three configuration calls succeed,
`GostCipher64_EncryptionECB` writes exactly the reference ciphertext and
`GostCipher64_DecryptionECB` of the reference ciphertext gives exactly the
reference plaintext, but `memcmp` is 0 on the first comparison and
`if (!memcmp(result, close, 32)) return false;` leaves the function with
`false`. -/
theorem C15_controlECB_returns_false (shlUB : Nat → Nat) (cipher : GostCipher64_t) :
    GostCipher64_ControlECB shlUB cipher = false ∧
    GostCipher64_SetPermutation shlUB
      (GostCipher64_SetKey (GostCipher64_Init (some cipher)).2 (some Control_key)).2
      (some GostCipher64_Permutation) = (true, some controlCipherECB) ∧
    GostCipher64_EncryptionECB (some controlCipherECB) (some Control_result) (some Control_open) 32 =
      ⟨true, some controlCipherECB, some ControlECB_close⟩ ∧
    memcmp ControlECB_close ControlECB_close 32 = 0 ∧
    GostCipher64_DecryptionECB (some controlCipherECB) (some ControlECB_close)
      (some ControlECB_close) 32 = ⟨true, some controlCipherECB, some Control_open⟩ := by
  refine ⟨?_, control_configuration shlUB cipher, controlECB_encryption, by decide,
    controlECB_decryption ControlECB_close (by decide)⟩
  unfold GostCipher64_ControlECB
  simp only [control_configuration, controlECB_encryption]
  have hinit : (GostCipher64_Init (some cipher)).1 = true := rfl
  have hkey : (GostCipher64_SetKey (GostCipher64_Init (some cipher)).2 (some Control_key)).1 =
      true := rfl
  have hcmp : memcmp ControlECB_close ControlECB_close 32 = 0 := by decide
  simp [hinit, hkey, hcmp]

/-- C20. The block transforms are total: for every context contents (any 128
table bytes, values above 15 included, and any 8 round keys) and every block,
the round loops of `GostCipher64_EncryptionBlock` and
`GostCipher64_DecryptionBlock` with every array read bounds-checked never
leave the arrays, run exactly 32 rounds and give the result of the
functions, which return `true`; every table index `16*(2j) + low nibble` and
`16*(2j+1) + high nibble`, `j` in 0..3, is below 128 and every round-key index
is below 8. -/
theorem C20_block_transforms_total (c : GostCipher64_t) (s d : Nat)
    (hT : c.data.permutation.length = 128) (hK : c.data.roundKeys.length = 8) :
    encryptionRoundsChecked c s = some (encryptionRounds c s, 32) ∧
    decryptionRoundsChecked c s = some (decryptionRounds c s, 32) ∧
    GostCipher64_EncryptionBlock (some c) (some d) (some s) =
      (true, some (encryptionRounds c s)) ∧
    GostCipher64_DecryptionBlock (some c) (some d) (some s) =
      (true, some (decryptionRounds c s)) ∧
    (∀ j b, j < 4 →
      16 * (2 * j) + (b &&& 0x0f) < 128 ∧ 16 * (2 * j + 1) + ((b &&& 0xf0) >>> 4) < 128) ∧
    (∀ i, encryptionKeyIndex i < 8 ∧ decryptionKeyIndex i < 8 ∧ i % 8 < 8 ∧ 7 - i % 8 < 8) :=
  ⟨encryptionRoundsChecked_eq c s hT hK, decryptionRoundsChecked_eq c s hT hK, rfl, rfl,
    fun j b hj => table_index_lt j b hj,
    fun i => ⟨(keyIndex_lt i).1, (keyIndex_lt i).2, Nat.mod_lt _ (by norm_num), by omega⟩⟩

set_option maxRecDepth 100000 in
/-- Witness of C20 on a context whose table holds only the byte `0xff`. -/
theorem C20_block_transforms_total_witness :
    (List.replicate 128 0xff).length = 128 ∧ [1, 2, 3, 4, 5, 6, 7, 8].length = 8 ∧
    encryptionRoundsChecked ⟨⟨List.replicate 128 0xff, [1, 2, 3, 4, 5, 6, 7, 8], none⟩, ⟨0, 0⟩⟩
        0x92def06b3c130a59 =
      some (encryptionRounds ⟨⟨List.replicate 128 0xff, [1, 2, 3, 4, 5, 6, 7, 8], none⟩, ⟨0, 0⟩⟩
        0x92def06b3c130a59, 32) ∧
    GostCipher64_DecryptionBlock
        (some ⟨⟨List.replicate 128 0xff, [1, 2, 3, 4, 5, 6, 7, 8], none⟩, ⟨0, 0⟩⟩) (some 0)
        (some 0x92def06b3c130a59) =
      (true, some (decryptionRounds
        ⟨⟨List.replicate 128 0xff, [1, 2, 3, 4, 5, 6, 7, 8], none⟩, ⟨0, 0⟩⟩
        0x92def06b3c130a59)) :=
  ⟨by decide, by decide,
    (C20_block_transforms_total ⟨⟨List.replicate 128 0xff, [1, 2, 3, 4, 5, 6, 7, 8], none⟩, ⟨0, 0⟩⟩
      0x92def06b3c130a59 0 (by decide) (by decide)).1,
    (C20_block_transforms_total ⟨⟨List.replicate 128 0xff, [1, 2, 3, 4, 5, 6, 7, 8], none⟩, ⟨0, 0⟩⟩
      0x92def06b3c130a59 0 (by decide) (by decide)).2.2.2.1⟩

end LibGost
